import Mathlib

/-!
Verification of the a2a smart-router orchestration core.

The Python sources under `src/agents` are shallowly embedded below:

* `agents/registry.py`     → `AgentRegistry.get`, `AgentRegistry.find_by_capability`
* `agents/router/executor.py` → `TaskExecutor.execute_on_agent`, `TaskExecutor.execute_all`
* `agents/router/router.py`   → `SmartRouter.route` (with `discover_loop` for its
  discovery for-loop and `route_fail` for its `except` block)
* `agents/router/analyzer.py` → `AnalyzerAgent.analyze`
* `agents/graph/nodes.py`     → `should_synthesize`
* `agents/chain/pipeline.py`  → `ChainPipeline.run` (with `run_steps` for its for-loop)

Python `await` calls into agents and LLMs are modelled as `Except String`
values (either a result or a raised exception's message).  The optional SSE
`event_handler` is modelled as a `Handler σ`: a sink owning a state of type
`σ` that consumes an `Event` and either returns its updated state or raises.
Computations that emit events live in the monad `RM σ`, which threads the
sink state and can raise a Python exception message.  Wall-clock data
(timestamps, `duration_ms`) is outside the model.
-/

/-- Response returned by an agent's `receive_message`: its content plus the
token usage extracted from its metadata (a missing `usage` entry is modelled
as zero counts, matching the `tokens = {"input": 0, "output": 0}` default in
`execute_on_agent`). -/
structure AgentResponse where
  content : String
  inputTokens : Nat
  outputTokens : Nat
deriving Repr, DecidableEq

/-- An agent as the router sees it: identifier, display name, capability tags
(`agent.config.capabilities`) and the behaviour of `receive_message` on a
subtask text — either a response or the message of a raised exception. -/
structure Agent where
  id : String
  name : String
  capabilities : List String
  receive : String → Except String AgentResponse

/-- The registry's `_agents` dict, keyed by id in registration order
(Python dicts preserve insertion order; `register` keeps ids unique). -/
abbrev AgentRegistry := List Agent

/-- `AgentRegistry.get`: `self._agents.get(agent_id)`. -/
def AgentRegistry.get (reg : AgentRegistry) (agent_id : String) : Option Agent :=
  reg.find? (fun a => a.id == agent_id)

/-- `AgentRegistry.find_by_capability`: all agents whose capability list
contains the tag, in registration order. -/
def AgentRegistry.find_by_capability (reg : AgentRegistry) (capability : String) :
    List Agent :=
  reg.filter (fun a => a.capabilities.contains capability)

/-- `CapabilityMatch` from `agents/router/models.py`. -/
structure CapabilityMatch where
  capability : String
  agent_ids : List String
  matched : Bool
deriving Repr, DecidableEq

/-- `ExecutionResult` from `agents/router/models.py`; `duration_ms` and the
timestamp are wall-clock data and stay outside the model. -/
structure ExecutionResult where
  agent_id : String
  agent_name : String
  capability : String
  input_text : String
  output_text : String
  success : Bool
  error : Option String
  tokensInput : Nat
  tokensOutput : Nat
deriving Repr, DecidableEq, Inhabited

/-- `AnalysisResult` from `agents/router/models.py`; `subtasks` is the
capability→subtask dict as an association list (unique keys). -/
structure AnalysisResult where
  task_id : String
  original_task : String
  detected_capabilities : List String
  subtasks : List (String × String)
deriving Repr, DecidableEq

/-- `SynthesisResult` from `agents/router/models.py`. -/
structure SynthesisResult where
  synthesized_output : String
  sources : List String
  tokensInput : Nat
  tokensOutput : Nat
deriving Repr, DecidableEq

/-- The dict returned by `SynthesizerAgent.synthesize` (keys
`synthesized_output`, `sources`, `tokens`; `duration_ms` is not modelled). -/
structure SynthOutput where
  synthesized_output : String
  sources : List String
  tokensInput : Nat
  tokensOutput : Nat
deriving Repr, DecidableEq

/-- `RouterResult` from `agents/router/models.py` (without the wall-clock
fields `total_duration_ms` and `timestamp`). -/
structure RouterResult where
  task_id : String
  original_task : String
  analysis : AnalysisResult
  «matches» : List CapabilityMatch
  executions : List ExecutionResult
  synthesis : Option SynthesisResult
  final_output : String
  status : String
  error : Option String
deriving Repr, DecidableEq

/-- `TaskInput` (task text plus generated id; timestamp not modelled). -/
structure TaskInput where
  task : String
  task_id : String
deriving Repr, DecidableEq

/-- The events passed to the SSE `event_handler`.  Payloads keep the fields
relevant to identity and ordering; wall-clock payload entries are dropped. -/
inductive Event where
  | routing_started (task_id task : String)
  | analysis_started (task_id : String)
  | analysis_completed (task_id : String) (capabilities : List String)
      (subtasks : List (String × String))
  | discovery_started (task_id capability : String)
  | discovery_completed (task_id capability : String) (agents : List String)
      (matched : Bool)
  | execution_started (task_id agent_id agent_name capability subtask : String)
  | execution_completed (task_id agent_id capability : String) (success : Bool)
      (error : Option String)
  | synthesis_started (task_id : String) (sources : List String)
  | synthesis_completed (task_id : String) (sources : List String)
  | routing_completed (task_id status : String) (error : Option String)
  | pipeline_started (pipeline_id prompt : String) (steps : List String)
  | step_started (pipeline_id : String) (step_index : Nat)
      (step_name input_preview : String)
  | step_completed (pipeline_id : String) (step_index : Nat)
      (step_name output : String)
  | message_passed (pipeline_id from_step to_step content : String)
  | pipeline_completed (pipeline_id status : String) (error : Option String)
deriving Repr, DecidableEq

/-- An attached event sink: it owns a state `σ` and consumes events one at a
time; a raising sink returns the exception message.  The orchestrator only
observes the sink through exceptions — the returned state never feeds back
into routing decisions. -/
structure Handler (σ : Type) where
  emit : Event → σ → Except String σ

/-- `event_handler = None` (also any attached sink that never raises and
whose state is ignored): emission is a no-op. -/
def noHandler : Handler Unit :=
  ⟨fun _ s => Except.ok s⟩

/-- A sink that records the events it receives, in order. -/
def traceHandler : Handler (List Event) :=
  ⟨fun e s => Except.ok (s ++ [e])⟩

/-- Computations of the orchestration core: they thread the sink state and
may raise a Python exception (its message).  On a raise the sink state at the
raise point is kept, mirroring that an SSE consumer keeps the events already
delivered. -/
def RM (σ : Type) (α : Type) : Type :=
  σ → Except String α × σ

def RM.pure (a : α) : RM σ α :=
  fun s => (Except.ok a, s)

def RM.bind (x : RM σ α) (f : α → RM σ β) : RM σ β :=
  fun s =>
    match x s with
    | (Except.ok a, s1) => f a s1
    | (Except.error e, s1) => (Except.error e, s1)

instance : Monad (RM σ) where
  pure := RM.pure
  bind := RM.bind

/-- Raise a Python exception carrying message `e`. -/
def RM.throw (e : String) : RM σ α :=
  fun s => (Except.error e, s)

/-- A Python `try`/`except Exception as e` wrapper. -/
def RM.tryCatch (x : RM σ α) (handle : String → RM σ α) : RM σ α :=
  fun s =>
    match x s with
    | (Except.ok a, s1) => (Except.ok a, s1)
    | (Except.error e, s1) => handle e s1

/-- An `await` on an external call that either returns or raises. -/
def RM.liftExcept : Except String α → RM σ α
  | Except.ok a => RM.pure a
  | Except.error e => RM.throw e

/-- `self._emit_event(...)`: pass the event to the sink; a raising sink
raises here. -/
def emitE (h : Handler σ) (e : Event) : RM σ Unit :=
  fun s =>
    match h.emit e s with
    | Except.ok s1 => (Except.ok Unit.unit, s1)
    | Except.error msg => (Except.error msg, s)

theorem RM.run_bind (x : RM σ α) (f : α → RM σ β) (s : σ) :
    (x >>= f) s =
      match x s with
      | (Except.ok a, s1) => f a s1
      | (Except.error e, s1) => (Except.error e, s1) := rfl

theorem RM.run_pure (a : α) (s : σ) :
    (Pure.pure a : RM σ α) s = (Except.ok a, s) := rfl

theorem noHandler_emit (e : Event) (s : Unit) :
    noHandler.emit e s = Except.ok s := rfl

theorem emitE_noHandler (e : Event) (s : Unit) :
    emitE noHandler e s = (Except.ok Unit.unit, s) := rfl

/-- `subtasks.get(capability, "")` on the capability→subtask dict. -/
def lookupSubtask (subtasks : List (String × String)) (capability : String) :
    String :=
  match subtasks.find? (fun p => p.1 == capability) with
  | some p => p.2
  | none => ""

/-- `TaskExecutor.execute_on_agent` (`agents/router/executor.py`, lines
50–146).  The `execution_started` emit precedes the `try:` block, so a
raising sink propagates out of it; inside the `try`, both the agent call and
the success-path `execution_completed` emit are covered by `except Exception`,
which converts the exception into a failed `ExecutionResult` and emits the
failure-path `execution_completed` (itself outside any handler). -/
def TaskExecutor.execute_on_agent (h : Handler σ) (agent : Agent)
    (capability subtask task_id : String) : RM σ ExecutionResult := do
  emitE h (Event.execution_started task_id agent.id agent.name capability subtask)
  RM.tryCatch
    (do
      let response ← RM.liftExcept (agent.receive subtask)
      let result : ExecutionResult :=
        { agent_id := agent.id
          agent_name := agent.name
          capability := capability
          input_text := subtask
          output_text := response.content
          success := true
          error := none
          tokensInput := response.inputTokens
          tokensOutput := response.outputTokens }
      emitE h (Event.execution_completed task_id agent.id capability true none)
      RM.pure result)
    (fun e => do
      let result : ExecutionResult :=
        { agent_id := agent.id
          agent_name := agent.name
          capability := capability
          input_text := subtask
          output_text := ""
          success := false
          error := some e
          tokensInput := 0
          tokensOutput := 0 }
      emitE h (Event.execution_completed task_id agent.id capability false (some e))
      RM.pure result)

/-- `TaskExecutor.execute_all` (`agents/router/executor.py`, lines 148–190):
a sequential for-loop that skips matches with `matched` false or an empty
agent list, skips capabilities whose subtask is missing or empty, resolves the
first agent id in the registry (silently skipping when absent) and awaits one
execution per remaining match, appending results in order.  `agent_ids.headD`
is `match.agent_ids[0]`; the guard has already ruled out the empty list. -/
def TaskExecutor.execute_all (h : Handler σ) (reg : AgentRegistry)
    (subtasks : List (String × String)) (task_id : String) :
    List CapabilityMatch → RM σ (List ExecutionResult)
  | [] => RM.pure []
  | m :: rest =>
    if m.matched = false ∨ m.agent_ids = [] then
      TaskExecutor.execute_all h reg subtasks task_id rest
    else
      let subtask := lookupSubtask subtasks m.capability
      if subtask = "" then
        TaskExecutor.execute_all h reg subtasks task_id rest
      else
        match AgentRegistry.get reg (m.agent_ids.headD "") with
        | none => TaskExecutor.execute_all h reg subtasks task_id rest
        | some agent => do
          let r ← TaskExecutor.execute_on_agent h agent m.capability subtask task_id
          let rs ← TaskExecutor.execute_all h reg subtasks task_id rest
          RM.pure (r :: rs)

/-- `should_synthesize` (`agents/graph/nodes.py`, lines 464–482): the
conditional edge returns `"synthesize"` iff more than one execution
succeeded. -/
def should_synthesize (executions : List ExecutionResult) : String :=
  let successful := executions.filter (fun e => e.success)
  if successful.length > 1 then "synthesize" else "end"

/-- The discovery for-loop of `SmartRouter.route` (`agents/router/router.py`,
lines 127–148): per capability it emits `discovery_started`, queries the
registry, builds a `CapabilityMatch` with `matched = len(agent_ids) > 0` and
emits `discovery_completed`.  A raising sink propagates to `route`'s
`except` block. -/
def discover_loop (h : Handler σ) (reg : AgentRegistry) (task_id : String) :
    List String → σ → Except String (List CapabilityMatch) × σ
  | [], s => (Except.ok [], s)
  | capability :: rest, s =>
    match h.emit (Event.discovery_started task_id capability) s with
    | Except.error e => (Except.error e, s)
    | Except.ok s1 =>
      let agents := AgentRegistry.find_by_capability reg capability
      let agent_ids := agents.map (fun a => a.id)
      let m : CapabilityMatch :=
        { capability := capability
          agent_ids := agent_ids
          matched := decide (agent_ids.length > 0) }
      match h.emit (Event.discovery_completed task_id capability agent_ids m.matched) s1 with
      | Except.error e => (Except.error e, s1)
      | Except.ok s2 =>
        match discover_loop h reg task_id rest s2 with
        | (Except.ok ms, s3) => (Except.ok (m :: ms), s3)
        | (Except.error e, s3) => (Except.error e, s3)

/-- The `except Exception as e` block of `SmartRouter.route` (lines 223–234):
the result collected so far gets `status = "failed"` and the exception message
as `error`, a failure `routing_completed` event is emitted (a raising sink
here propagates to the caller), and the partial result is returned. -/
def route_fail (h : Handler σ) (task_id : String) (r : RouterResult)
    (e : String) : σ → Except String RouterResult × σ :=
  fun s =>
    let r1 := { r with status := "failed", error := some e }
    match h.emit (Event.routing_completed task_id "failed" (some e)) s with
    | Except.error e2 => (Except.error e2, s)
    | Except.ok s1 => (Except.ok r1, s1)

/-- `SmartRouter.route` (`agents/router/router.py`, lines 71–234).  The
analyzer and synthesizer collaborators are passed as behaviours: `analyzer`
is `self.analyzer.analyze(task, task_id)` and `synthesizer` is
`self.synthesizer.synthesize(original_task=task, executions=successful,
task_id=task_id)`, each either returning or raising.  The initial
`routing_started` emit precedes the `try:` block, so a raising sink there
propagates to the caller; every later raise is routed through `route_fail`
with the result snapshot accumulated so far, mirroring the in-place mutation
of `result`. -/
def SmartRouter.route
    (reg : AgentRegistry)
    (analyzer : String → String → Except String AnalysisResult)
    (synthesizer : String → List ExecutionResult → String → Except String SynthOutput)
    (h : Handler σ) (task_input : TaskInput) : RM σ RouterResult :=
  fun s0 =>
    let task_id := task_input.task_id
    let task := task_input.task
    let r0 : RouterResult :=
      { task_id := task_id
        original_task := task
        analysis :=
          { task_id := task_id
            original_task := task
            detected_capabilities := []
            subtasks := [] }
        «matches» := []
        executions := []
        synthesis := none
        final_output := ""
        status := "analyzing"
        error := none }
    match h.emit (Event.routing_started task_id task) s0 with
    | Except.error e => (Except.error e, s0)
    | Except.ok s1 =>
      -- Step 1: analyze task
      match h.emit (Event.analysis_started task_id) s1 with
      | Except.error e => route_fail h task_id r0 e s1
      | Except.ok s2 =>
        match analyzer task task_id with
        | Except.error e => route_fail h task_id r0 e s2
        | Except.ok analysis =>
          let r1 := { r0 with analysis := analysis }
          match h.emit (Event.analysis_completed task_id
              analysis.detected_capabilities analysis.subtasks) s2 with
          | Except.error e => route_fail h task_id r1 e s2
          | Except.ok s3 =>
            if analysis.detected_capabilities = [] then
              let r2 := { r1 with
                status := "completed"
                final_output := "No capabilities detected for this task." }
              match h.emit (Event.routing_completed task_id "completed" none) s3 with
              | Except.error e => route_fail h task_id r2 e s3
              | Except.ok s4 => (Except.ok r2, s4)
            else
              -- Step 2: discover agents
              let rD := { r1 with status := "discovering" }
              match discover_loop h reg task_id analysis.detected_capabilities s3 with
              | (Except.error e, s4) => route_fail h task_id rD e s4
              | (Except.ok ms, s4) =>
                let r2 := { rD with «matches» := ms }
                if ms.any (fun m => m.matched) = false then
                  let r3 := { r2 with
                    status := "completed"
                    final_output := "No agents found for required capabilities." }
                  match h.emit (Event.routing_completed task_id "completed" none) s4 with
                  | Except.error e => route_fail h task_id r3 e s4
                  | Except.ok s5 => (Except.ok r3, s5)
                else
                  -- Step 3: execute subtasks
                  let r3 := { r2 with status := "executing" }
                  match TaskExecutor.execute_all h reg analysis.subtasks task_id ms s4 with
                  | (Except.error e, s5) => route_fail h task_id r3 e s5
                  | (Except.ok executions, s5) =>
                    let r4 := { r3 with executions := executions }
                    -- Step 4: synthesize results
                    let successful := executions.filter (fun e => e.success)
                    if successful.isEmpty = false then
                      if successful.length > 1 then
                        let r5 := { r4 with status := "synthesizing" }
                        match h.emit (Event.synthesis_started task_id
                            (successful.map (fun e => e.agent_id))) s5 with
                        | Except.error e => route_fail h task_id r5 e s5
                        | Except.ok s6 =>
                          match synthesizer task successful task_id with
                          | Except.error e => route_fail h task_id r5 e s6
                          | Except.ok syn =>
                            let r6 := { r5 with
                              synthesis := some
                                { synthesized_output := syn.synthesized_output
                                  sources := syn.sources
                                  tokensInput := syn.tokensInput
                                  tokensOutput := syn.tokensOutput }
                              final_output := syn.synthesized_output }
                            match h.emit (Event.synthesis_completed task_id syn.sources) s6 with
                            | Except.error e => route_fail h task_id r6 e s6
                            | Except.ok s7 =>
                              let r7 := { r6 with status := "completed" }
                              match h.emit (Event.routing_completed task_id "completed" none) s7 with
                              | Except.error e => route_fail h task_id r7 e s7
                              | Except.ok s8 => (Except.ok r7, s8)
                      else
                        -- single successful execution, use directly
                        let r5 := { r4 with
                          final_output := (successful.headD default).output_text }
                        let r6 := { r5 with status := "completed" }
                        match h.emit (Event.routing_completed task_id "completed" none) s5 with
                        | Except.error e => route_fail h task_id r6 e s5
                        | Except.ok s6 => (Except.ok r6, s6)
                    else
                      let r5 := { r4 with final_output := "All executions failed." }
                      let r6 := { r5 with status := "completed" }
                      match h.emit (Event.routing_completed task_id "completed" none) s5 with
                      | Except.error e => route_fail h task_id r6 e s5
                      | Except.ok s6 => (Except.ok r6, s6)

/-!
Analyzer model.  `AnalyzerAgent.analyze` manipulates the raw LLM response
with Python `str.split`, so the response text is modelled as a `List Char`
(`PyStr`) together with an executable `pysplit` mirroring Python's
`str.split(sep)` for a non-empty separator: leftmost, non-overlapping
occurrences.  `json.loads` followed by the two `.get` calls is abstracted as
a `parse` behaviour that either yields the capability list and subtask map or
raises (`JSONDecodeError`, or `AttributeError` when the parsed value is not a
dict — both are caught by `analyze`).
-/

/-- A Python `str`, as a character list. -/
abbrev PyStr := List Char

/-- The backquote character, `chr(96)`. -/
def backquote : Char := Char.ofNat 96

/-- The separator "```json". -/
def sepJson : PyStr := "```json".data

/-- The separator "```". -/
def sepFence : PyStr := "```".data

/-- If `sep` is a prefix of `s`, the remainder of `s` after it. -/
def dropPrefixQ : PyStr → PyStr → Option PyStr
  | [], s => some s
  | _ :: _, [] => none
  | c :: cs, d :: ds => if c = d then dropPrefixQ cs ds else none

/-- Fuelled worker for `pysplit`; fuel at least `s.length + 1` makes the fuel
branch unreachable for a non-empty separator. -/
def pysplitAux (sep : PyStr) : Nat → PyStr → List PyStr
  | 0, s => [s]
  | _ + 1, [] => [[]]
  | fuel + 1, c :: rest =>
    match dropPrefixQ sep (c :: rest) with
    | some tail => [] :: pysplitAux sep fuel tail
    | none =>
      match pysplitAux sep fuel rest with
      | [] => [[c]]
      | grp :: grps => (c :: grp) :: grps

/-- Python `s.split(sep)` for a non-empty `sep` (the analyzer only splits on
"```json" and "```"). -/
def pysplit (sep s : PyStr) : List PyStr :=
  if sep = [] then [s] else pysplitAux sep (s.length + 1) s

/-- Python `s.strip()`: leading and trailing whitespace removed. -/
def pystrip (s : PyStr) : List Char :=
  ((s.dropWhile Char.isWhitespace).reverse.dropWhile Char.isWhitespace).reverse

/-- The fenced-code-block handling of `AnalyzerAgent.analyze`
(`agents/router/analyzer.py`, lines 106–111).  Python's containment test
`sep in s` holds exactly when `s.split(sep)` has more than one part, so the
two `in` checks are modelled through `pysplit`; the fenced branches are
`json_text.split(sep)[1].split("```")[0]`. -/
def extract_json_text (s : PyStr) : PyStr :=
  if (pysplit sepJson s).length > 1 then
    (pysplit sepFence ((pysplit sepJson s).getD 1 [])).headD []
  else if (pysplit sepFence s).length > 1 then
    (pysplit sepFence ((pysplit sepFence s).getD 1 [])).headD []
  else s

/-- An `AnalysisResult` with empty capabilities and subtasks, as built by the
two `except` branches of `analyze`. -/
def emptyAnalysis (task task_id : String) : AnalysisResult :=
  { task_id := task_id
    original_task := task
    detected_capabilities := []
    subtasks := [] }

/-- `AnalyzerAgent.analyze` (`agents/router/analyzer.py`, lines 77–147).
`think` is the awaited LLM call (`result.get("response", "")`), `parse` is
`json.loads` on the stripped text followed by the `capabilities`/`subtasks`
extraction.  Every exception — from the LLM call, from `json.loads`, or from
the `.get` calls — is caught and degraded to an empty `AnalysisResult`, so the
function is total. -/
def AnalyzerAgent.analyze
    (think : Except String PyStr)
    (parse : PyStr → Except String (List String × List (String × String)))
    (task task_id : String) : AnalysisResult :=
  match think with
  | Except.error _ => emptyAnalysis task task_id
  | Except.ok response_text =>
    let json_text := extract_json_text response_text
    match parse (pystrip json_text) with
    | Except.error _ => emptyAnalysis task task_id
    | Except.ok (capabilities, subtasks) =>
      { task_id := task_id
        original_task := task
        detected_capabilities := capabilities
        subtasks := subtasks }

/-!
Chain pipeline (`agents/chain/pipeline.py` and `agents/chain/base.py`).
-/

/-- `TransformResult` from `agents/chain/base.py`. -/
structure TransformResult where
  text : String
  model : String
  inputTokens : Nat
  outputTokens : Nat
deriving Repr, DecidableEq

/-- A chain step agent: its `step_name`, its model label, and the behaviour
of `transform_with_metadata` (returns or raises). -/
structure ChainStepAgent where
  step_name : String
  model : String
  transform : String → Except String TransformResult

/-- `StepResult` from `agents/chain/models.py` (wall-clock fields dropped). -/
structure StepResult where
  step_name : String
  step_index : Nat
  input_text : String
  output_text : String
  model : String
  tokensInput : Nat
  tokensOutput : Nat
deriving Repr, DecidableEq

/-- `PipelineInput` (prompt and generated id; the unused `steps`/`metadata`
fields are dropped). -/
structure PipelineInput where
  prompt : String
  pipeline_id : String
deriving Repr, DecidableEq

/-- `PipelineResult` from `agents/chain/models.py` (wall-clock fields
dropped). -/
structure PipelineResult where
  pipeline_id : String
  prompt : String
  steps : List StepResult
  final_output : String
  status : String
  error : Option String
deriving Repr, DecidableEq

/-- A single-quote character, `chr(39)` (kept out of string literals). -/
def squote : String := (Char.ofNat 39).toString

/-- The f-string of the pipeline's inner `except`:
`Step <q><name><q> failed: <msg>` with `<q>` a single quote. -/
def step_failed_msg (step_name msg : String) : String :=
  "Step " ++ squote ++ step_name ++ squote ++ " failed: " ++ msg

/-- The `input_preview` payload entry of `step_started`: the first 200
characters plus an ellipsis when longer. -/
def input_preview (text : String) : String :=
  if text.length > 200 then text.take 200 ++ "..." else text

/-- Outcome of the pipeline's for-loop: the step results appended so far, the
`current_text` variable, the `error_message` set by the inner `except` (a
`break`), and — separately — an exception that escaped the loop towards the
outer `except` (only a raising event sink can cause this). -/
structure StepsOutcome where
  steps : List StepResult
  current : String
  err : Option String
  raised : Option String
deriving Repr, DecidableEq

/-- The for-loop of `ChainPipeline.run` (`agents/chain/pipeline.py`, lines
75–141).  Per step: `step_started` is emitted outside the inner `try` (a
raising sink escapes to the outer `except`); the inner `try` awaits the
transform, appends the `StepResult`, emits `step_completed` and — when a next
step exists — `message_passed`, then advances `current_text`.  Any exception
inside the inner `try` (including from those two emits, after the step result
was already appended) becomes `error_message` and breaks the loop. -/
def run_steps (h : Handler σ) (pipeline_id : String) :
    Nat → String → List ChainStepAgent → σ → StepsOutcome × σ
  | _, current, [], s => (⟨[], current, none, none⟩, s)
  | index, current, agent :: rest, s =>
    match h.emit (Event.step_started pipeline_id index agent.step_name
        (input_preview current)) s with
    | Except.error e => (⟨[], current, none, some e⟩, s)
    | Except.ok s1 =>
      match agent.transform current with
      | Except.error e =>
        (⟨[], current, some (step_failed_msg agent.step_name e), none⟩, s1)
      | Except.ok tr =>
        let step_result : StepResult :=
          { step_name := agent.step_name
            step_index := index
            input_text := current
            output_text := tr.text
            model := tr.model
            tokensInput := tr.inputTokens
            tokensOutput := tr.outputTokens }
        match h.emit (Event.step_completed pipeline_id index agent.step_name tr.text) s1 with
        | Except.error e =>
          (⟨[step_result], current, some (step_failed_msg agent.step_name e), none⟩, s1)
        | Except.ok s2 =>
          match rest with
          | [] => (⟨[step_result], tr.text, none, none⟩, s2)
          | next :: _ =>
            match h.emit (Event.message_passed pipeline_id agent.step_name
                next.step_name tr.text) s2 with
            | Except.error e =>
              (⟨[step_result], current, some (step_failed_msg agent.step_name e), none⟩, s2)
            | Except.ok s3 =>
              let (out, s4) := run_steps h pipeline_id (index + 1) tr.text rest s3
              (⟨step_result :: out.steps, out.current, out.err, out.raised⟩, s4)

/-- The outer `except` block of `ChainPipeline.run` (lines 165–184): wraps the
exception as `Pipeline failed: <e>`, emits a failure `pipeline_completed` (a
raising sink here propagates to the caller) and returns a failed
`PipelineResult` keeping the steps collected so far. -/
def pipeline_fail (h : Handler σ) (input : PipelineInput)
    (steps : List StepResult) (e : String) : σ → Except String PipelineResult × σ :=
  fun s =>
    let msg := "Pipeline failed: " ++ e
    match h.emit (Event.pipeline_completed input.pipeline_id "failed" (some msg)) s with
    | Except.error e2 => (Except.error e2, s)
    | Except.ok s1 =>
      (Except.ok
        { pipeline_id := input.pipeline_id
          prompt := input.prompt
          steps := steps
          final_output := "Error: " ++ msg
          status := "failed"
          error := some msg }, s1)

/-- `ChainPipeline.run` (`agents/chain/pipeline.py`, lines 52–184).  The
`pipeline_started` emit precedes the `try:`, so a raising sink there
propagates raw; the loop then runs, the status is derived from
`error_message`, a `pipeline_completed` event is emitted (still inside the
`try`) and the result is returned, with `final_output` either the last
output text or `Error: <message>`. -/
def ChainPipeline.run (h : Handler σ) (agents : List ChainStepAgent)
    (input : PipelineInput) : RM σ PipelineResult :=
  fun s0 =>
    match h.emit (Event.pipeline_started input.pipeline_id input.prompt
        (agents.map (fun a => a.step_name))) s0 with
    | Except.error e => (Except.error e, s0)
    | Except.ok s1 =>
      match run_steps h input.pipeline_id 0 input.prompt agents s1 with
      | (out, s2) =>
        match out.raised with
        | some e => pipeline_fail h input out.steps e s2
        | none =>
          let status := if out.err.isSome then "failed" else "completed"
          match h.emit (Event.pipeline_completed input.pipeline_id status out.err) s2 with
          | Except.error e => pipeline_fail h input out.steps e s2
          | Except.ok s3 =>
            (Except.ok
              { pipeline_id := input.pipeline_id
                prompt := input.prompt
                steps := out.steps
                final_output :=
                  match out.err with
                  | none => out.current
                  | some m => "Error: " ++ m
                status := status
                error := out.err }, s3)

/-!
Dependency-ordered execution.  `TaskExecutor.execute_with_dependencies` is
referenced by `agents/graph/nodes.py` (guarded by `hasattr`) and mocked in
the unit tests, but its implementation is not part of the sources; the
definitions below model it from the specification.
-/

/-- Modelled from the spec: the `dependencies` map, capability → list of
prerequisite capabilities, as an association list; a capability absent from
the map has no prerequisites. -/
def depsOf (dependencies : List (String × List String)) (c : String) :
    List String :=
  match dependencies.find? (fun p => p.1 == c) with
  | some p => p.2
  | none => []

/-- Modelled from the spec: Kahn-style level partitioning.  Each round places
every remaining capability whose prerequisites (restricted to the capability
set being scheduled) are already placed; a round that places nothing while
capabilities remain means a cycle, reported as `CyclicDependencyError`.  Fuel
starts at the number of capabilities, which suffices because every successful
round places at least one. -/
def topo_go (dependencies : List (String × List String)) (caps : List String) :
    Nat → List String → List String → Except String (List (List String))
  | _, _, [] => Except.ok []
  | 0, _, _ => Except.error "CyclicDependencyError"
  | fuel + 1, placed, remaining =>
    let ready := remaining.filter
      (fun c => (depsOf dependencies c).all
        (fun d => placed.contains d || !caps.contains d))
    if ready.isEmpty then Except.error "CyclicDependencyError"
    else
      match topo_go dependencies caps fuel (placed ++ ready)
          (remaining.filter (fun c => !ready.contains c)) with
      | Except.ok lvls => Except.ok (ready :: lvls)
      | Except.error e => Except.error e

/-- Modelled from the spec: partition the capabilities into dependency levels
via topological sort, failing fast with `CyclicDependencyError` on a cyclic
map. -/
def topo_levels (dependencies : List (String × List String))
    (caps : List String) : Except String (List (List String)) :=
  topo_go dependencies caps caps.length [] caps

/-- Modelled from the spec: run the levels strictly in order; within a level
the matches are handed to `execute_all` (same selection semantics).  A
capability whose prerequisite failed or was skipped is itself skipped and
absent from the result list; `bad` accumulates failed and skipped
capabilities. -/
def exec_levels (h : Handler σ) (reg : AgentRegistry)
    (subtasks : List (String × String)) (task_id : String)
    (ms : List CapabilityMatch) (dependencies : List (String × List String)) :
    List (List String) → List String → RM σ (List ExecutionResult)
  | [], _ => RM.pure []
  | lvl :: rest, bad =>
    let skipped := lvl.filter
      (fun c => (depsOf dependencies c).any (fun d => bad.contains d))
    let runnable := ms.filter
      (fun m => lvl.contains m.capability && !skipped.contains m.capability)
    do
      let rs ← TaskExecutor.execute_all h reg subtasks task_id runnable
      let failedCaps := (rs.filter (fun r => !r.success)).map
        (fun r => r.capability)
      let rs2 ← exec_levels h reg subtasks task_id ms dependencies rest
        (bad ++ skipped ++ failedCaps)
      RM.pure (rs ++ rs2)

/-- Modelled from the spec: `TaskExecutor.execute_with_dependencies(matches,
subtasks, task_id, dependencies)` — absent from `src` (only its `hasattr`
caller in `agents/graph/nodes.py` and test mocks exist).  It topologically
sorts the capabilities of the matches into dependency levels, raising
`CyclicDependencyError` before any execution when the map is cyclic, and
otherwise executes the levels strictly in order. -/
def TaskExecutor.execute_with_dependencies (h : Handler σ)
    (reg : AgentRegistry) (subtasks : List (String × String))
    (task_id : String) (ms : List CapabilityMatch)
    (dependencies : List (String × List String)) :
    RM σ (List ExecutionResult) :=
  match topo_levels dependencies (ms.map (fun m => m.capability)) with
  | Except.error e => RM.throw e
  | Except.ok levels => exec_levels h reg subtasks task_id ms dependencies levels []

/-!
Proof infrastructure: pure characterizations of the executor and the
discovery loop under a sink that never raises.
-/

instance : Inhabited Agent :=
  ⟨{ id := "", name := "", capabilities := [], receive := fun _ => Except.error "" }⟩

theorem RM.bind_eq (x : RM σ α) (f : α → RM σ β) : x >>= f = RM.bind x f := rfl

theorem RM.pure_eq (a : α) : (Pure.pure a : RM σ α) = RM.pure a := rfl

/-- The `ExecutionResult` that `execute_on_agent` builds when the event sink
never raises: fully determined by the agent's behaviour on the subtask. -/
def execResultOf (agent : Agent) (capability subtask : String) : ExecutionResult :=
  match agent.receive subtask with
  | Except.ok response =>
    { agent_id := agent.id
      agent_name := agent.name
      capability := capability
      input_text := subtask
      output_text := response.content
      success := true
      error := none
      tokensInput := response.inputTokens
      tokensOutput := response.outputTokens }
  | Except.error e =>
    { agent_id := agent.id
      agent_name := agent.name
      capability := capability
      input_text := subtask
      output_text := ""
      success := false
      error := some e
      tokensInput := 0
      tokensOutput := 0 }

theorem execute_on_agent_noHandler (agent : Agent)
    (capability subtask task_id : String) (s : Unit) :
    TaskExecutor.execute_on_agent noHandler agent capability subtask task_id s =
      (Except.ok (execResultOf agent capability subtask), s) := by
  cases hrec : agent.receive subtask <;>
    simp [TaskExecutor.execute_on_agent, execResultOf, hrec, RM.bind_eq, RM.pure_eq,
      RM.bind, RM.pure, RM.tryCatch, RM.liftExcept, RM.throw, emitE, noHandler]

/-- A match that `execute_all` acts on: `matched` is set, the agent list is
non-empty and the capability has a non-empty subtask. -/
def eligibleMatch (subtasks : List (String × String)) (m : CapabilityMatch) : Bool :=
  m.matched && !m.agent_ids.isEmpty && !(lookupSubtask subtasks m.capability == "")

/-- Pure description of `execute_all` under a non-raising sink. -/
def execAllPure (reg : AgentRegistry) (subtasks : List (String × String)) :
    List CapabilityMatch → List ExecutionResult
  | [] => []
  | m :: rest =>
    if eligibleMatch subtasks m then
      match AgentRegistry.get reg (m.agent_ids.headD "") with
      | none => execAllPure reg subtasks rest
      | some agent =>
        execResultOf agent m.capability (lookupSubtask subtasks m.capability) ::
          execAllPure reg subtasks rest
    else execAllPure reg subtasks rest

theorem execute_all_noHandler (reg : AgentRegistry)
    (subtasks : List (String × String)) (task_id : String)
    (ms : List CapabilityMatch) (s : Unit) :
    TaskExecutor.execute_all noHandler reg subtasks task_id ms s =
      (Except.ok (execAllPure reg subtasks ms), s) := by
  induction ms with
  | nil => simp [TaskExecutor.execute_all, execAllPure, RM.pure]
  | cons m rest ih =>
    by_cases hm : m.matched = false ∨ m.agent_ids = []
    · have helig : eligibleMatch subtasks m = false := by
        rcases hm with hm | hm <;> simp [eligibleMatch, hm]
      simp [TaskExecutor.execute_all, execAllPure, hm, helig, ih]
    · push_neg at hm
      obtain ⟨hm1, hm2⟩ := hm
      by_cases hsub : lookupSubtask subtasks m.capability = ""
      · have helig : eligibleMatch subtasks m = false := by
          simp [eligibleMatch, hsub]
        simp [TaskExecutor.execute_all, execAllPure, hm1, hm2, hsub, helig, ih]
      · have helig : eligibleMatch subtasks m = true := by
          simp only [Bool.not_eq_false] at hm1
          simp [eligibleMatch, hm1, hm2, hsub]
        cases hget : AgentRegistry.get reg (m.agent_ids.headD "") with
        | none =>
          simp only [List.headD_eq_head?] at hget
          simp [TaskExecutor.execute_all, execAllPure, hm1, hm2, hsub, helig, hget, ih]
        | some agent =>
          simp only [List.headD_eq_head?] at hget
          simp [TaskExecutor.execute_all, execAllPure, hm1, hm2, hsub, helig, hget, ih,
            RM.bind_eq, RM.bind, RM.pure_eq, RM.pure, execute_on_agent_noHandler]

/-!
Concrete fixtures used by witnesses and counterexamples.
-/

/-- A calculation agent whose call succeeds. -/
def okAgent : Agent :=
  { id := "a1"
    name := "Agent One"
    capabilities := ["calculation"]
    receive := fun t => Except.ok ⟨"ok:" ++ t, 1, 2⟩ }

/-- A research agent whose call succeeds. -/
def okAgent2 : Agent :=
  { id := "a2"
    name := "Agent Two"
    capabilities := ["research"]
    receive := fun t => Except.ok ⟨"res:" ++ t, 3, 4⟩ }

/-- An agent whose call raises `boom`. -/
def badAgent : Agent :=
  { id := "b1"
    name := "Bad Agent"
    capabilities := ["estimation"]
    receive := fun _ => Except.error "boom" }

/-- C5.  `execute_on_agent` always returns an `ExecutionResult` (any
exception from the agent call is caught); a raising call yields
`success = false`, empty output and the exception message as `error`; a
successful call yields `success = true` with `error` unset; `error` is set
iff `success` is false. -/
theorem execute_on_agent_total_error_iff_failure (agent : Agent)
    (capability subtask task_id : String) :
    ∃ r : ExecutionResult,
      TaskExecutor.execute_on_agent noHandler agent capability subtask task_id Unit.unit =
        (Except.ok r, Unit.unit) ∧
      (∀ e, agent.receive subtask = Except.error e →
        r.success = false ∧ r.output_text = "" ∧ r.error = some e) ∧
      (∀ resp, agent.receive subtask = Except.ok resp →
        r.success = true ∧ r.error = none ∧ r.output_text = resp.content) ∧
      (r.error ≠ none ↔ r.success = false) := by
  refine ⟨execResultOf agent capability subtask,
    execute_on_agent_noHandler agent capability subtask task_id Unit.unit, ?_, ?_, ?_⟩ <;>
    cases h : agent.receive subtask <;>
      simp_all [execResultOf]

/-- Witness for C5 at a concrete raising agent. -/
theorem execute_on_agent_total_error_iff_failure_witness :
    ∃ r : ExecutionResult,
      TaskExecutor.execute_on_agent noHandler badAgent "estimation" "guess" "t1" Unit.unit =
        (Except.ok r, Unit.unit) ∧
      r.success = false ∧ r.output_text = "" ∧ r.error = some "boom" := by
  obtain ⟨r, hr, hfail, -, -⟩ :=
    execute_on_agent_total_error_iff_failure badAgent "estimation" "guess" "t1"
  have h := hfail "boom" rfl
  exact ⟨r, hr, h.1, h.2.1, h.2.2⟩

theorem execAllPure_eq_map (reg : AgentRegistry)
    (subtasks : List (String × String)) (ms : List CapabilityMatch)
    (hreg : ∀ m ∈ ms, eligibleMatch subtasks m = true →
      (AgentRegistry.get reg (m.agent_ids.headD "")).isSome = true) :
    execAllPure reg subtasks ms =
      (ms.filter (eligibleMatch subtasks)).map
        (fun m => execResultOf ((AgentRegistry.get reg (m.agent_ids.headD "")).getD default)
          m.capability (lookupSubtask subtasks m.capability)) := by
  induction ms with
  | nil => simp [execAllPure]
  | cons m rest ih =>
    have ihrest := ih (fun x hx hex => hreg x (List.mem_cons_of_mem m hx) hex)
    by_cases helig : eligibleMatch subtasks m = true
    · have hsome := hreg m (List.mem_cons_self m rest) helig
      obtain ⟨agent, hget⟩ := Option.isSome_iff_exists.mp hsome
      simp only [List.headD_eq_head?] at hget
      simp [execAllPure, helig, hget, ihrest]
    · simp [execAllPure, helig, ihrest, Bool.not_eq_true _ ▸ helig]

/-- C6.  `execute_all` executes exactly one agent per match that is
`matched`, has a candidate agent and a non-empty subtask, always choosing
the first agent id of the match; it produces no result for matches that
are unmatched, have an empty agent list, or have no (or an empty) subtask.
The hypothesis says every selected first agent is registered — the case of a
stale first agent is the separate stale-match-skip property. -/
theorem execute_all_selection_policy (reg : AgentRegistry)
    (subtasks : List (String × String)) (task_id : String)
    (ms : List CapabilityMatch)
    (hreg : ∀ m ∈ ms, eligibleMatch subtasks m = true →
      (AgentRegistry.get reg (m.agent_ids.headD "")).isSome = true) :
    TaskExecutor.execute_all noHandler reg subtasks task_id ms Unit.unit =
      (Except.ok ((ms.filter (eligibleMatch subtasks)).map
        (fun m => execResultOf ((AgentRegistry.get reg (m.agent_ids.headD "")).getD default)
          m.capability (lookupSubtask subtasks m.capability))), Unit.unit) := by
  rw [execute_all_noHandler, execAllPure_eq_map reg subtasks ms hreg]

/-- Witness for C6: two matches, one eligible and one unmatched; exactly the
eligible one is executed, on the first agent of its list. -/
theorem execute_all_selection_policy_witness :
    TaskExecutor.execute_all noHandler [okAgent, okAgent2]
      [("calculation", "add numbers")] "t2"
      [⟨"calculation", ["a1", "a2"], true⟩, ⟨"translation", [], false⟩] Unit.unit =
      (Except.ok [⟨"a1", "Agent One", "calculation", "add numbers",
        "ok:add numbers", true, none, 1, 2⟩], Unit.unit) := by
  rw [execute_all_selection_policy _ _ _ _ (by decide)]
  rfl

/-- C10.  A match whose first agent id is no longer registered is silently
skipped by `execute_all`: no exception, no failed result, no fallback to the
other agents of the match — the run is the run without that match, for any
attached sink. -/
theorem execute_all_stale_match_skip {σ : Type} (h : Handler σ)
    (reg : AgentRegistry) (subtasks : List (String × String)) (task_id : String)
    (m : CapabilityMatch) (ms : List CapabilityMatch)
    (hmatched : m.matched = true) (hne : m.agent_ids ≠ [])
    (hsub : lookupSubtask subtasks m.capability ≠ "")
    (hstale : AgentRegistry.get reg (m.agent_ids.headD "") = none) :
    TaskExecutor.execute_all h reg subtasks task_id (m :: ms) =
      TaskExecutor.execute_all h reg subtasks task_id ms := by
  simp only [List.headD_eq_head?] at hstale
  simp [TaskExecutor.execute_all, hmatched, hne, hsub, hstale]

/-- Witness for C10: the stale match `calculation → [ghost]` contributes
nothing even though it is matched and has a subtask. -/
theorem execute_all_stale_match_skip_witness :
    TaskExecutor.execute_all noHandler [okAgent]
      [("calculation", "do it")] "t3"
      [⟨"calculation", ["ghost"], true⟩] =
      TaskExecutor.execute_all noHandler [okAgent] [("calculation", "do it")] "t3" [] := by
  exact execute_all_stale_match_skip noHandler [okAgent] [("calculation", "do it")] "t3"
    ⟨"calculation", ["ghost"], true⟩ [] rfl (by decide) (by decide) rfl

/-- Pure description of the discovery loop: one `CapabilityMatch` per
detected capability, in order, from the registry lookup. -/
def discoverPure (reg : AgentRegistry) (caps : List String) : List CapabilityMatch :=
  caps.map (fun capability =>
    let agent_ids := (AgentRegistry.find_by_capability reg capability).map (fun a => a.id)
    { capability := capability
      agent_ids := agent_ids
      matched := decide (agent_ids.length > 0) })

theorem discover_loop_noHandler (reg : AgentRegistry) (task_id : String)
    (caps : List String) (s : Unit) :
    discover_loop noHandler reg task_id caps s =
      (Except.ok (discoverPure reg caps), s) := by
  induction caps with
  | nil => simp [discover_loop, discoverPure]
  | cons c rest ih => simp [discover_loop, discoverPure, noHandler_emit, ih]

theorem route_noHandler_run
    (reg : AgentRegistry)
    (analyzer : String → String → Except String AnalysisResult)
    (synthesizer : String → List ExecutionResult → String → Except String SynthOutput)
    (input : TaskInput) (analysis : AnalysisResult)
    (ha : analyzer input.task input.task_id = Except.ok analysis)
    (hcaps : ¬analysis.detected_capabilities = [])
    (hany : (discoverPure reg analysis.detected_capabilities).any (fun m => m.matched) = true) :
    SmartRouter.route reg analyzer synthesizer noHandler input Unit.unit =
      (let ms := discoverPure reg analysis.detected_capabilities
      let E := execAllPure reg analysis.subtasks ms
      let successful := E.filter (fun e => e.success)
      let base : RouterResult :=
        { task_id := input.task_id
          original_task := input.task
          analysis := analysis
          «matches» := ms
          executions := E
          synthesis := none
          final_output := ""
          status := "executing"
          error := none }
      if successful.isEmpty = false then
        if successful.length > 1 then
          match synthesizer input.task successful input.task_id with
          | Except.ok syn =>
            (Except.ok { base with
              status := "completed"
              synthesis := some ⟨syn.synthesized_output, syn.sources,
                syn.tokensInput, syn.tokensOutput⟩
              final_output := syn.synthesized_output }, Unit.unit)
          | Except.error e =>
            (Except.ok { base with status := "failed", error := some e }, Unit.unit)
        else
          (Except.ok { base with
            status := "completed"
            final_output := (successful.headD default).output_text }, Unit.unit)
      else
        (Except.ok { base with
          status := "completed"
          final_output := "All executions failed." }, Unit.unit)) := by
  have hanyne : ¬((discoverPure reg analysis.detected_capabilities).any
      (fun m => m.matched) = false) := by
    simp [hany]
  simp only [SmartRouter.route, noHandler_emit, ha, discover_loop_noHandler,
    execute_all_noHandler, route_fail, if_neg hcaps, if_neg hanyne]
  cases hsynr : synthesizer input.task
      ((execAllPure reg analysis.subtasks
        (discoverPure reg analysis.detected_capabilities)).filter (fun e => e.success))
      input.task_id <;>
    simp [hsynr]

/-- C1.  Synthesis iff more than one success: whenever the router reaches the
executing phase (capabilities detected, at least one matched), the result has
a `SynthesisResult` iff strictly more than one execution succeeded; with
exactly one success the final output is that result's output text and no
synthesis is recorded; with zero successes the final output is the all-failed
message and no synthesis is recorded.  The graph variant's `should_synthesize`
edge implements the same threshold.  The synthesizer is assumed not to raise,
so a recorded `SynthesisResult` coincides with the synthesizer having been
invoked. -/
theorem conditional_synthesis_threshold
    (reg : AgentRegistry)
    (analyzer : String → String → Except String AnalysisResult)
    (synthesizer : String → List ExecutionResult → String → Except String SynthOutput)
    (input : TaskInput) (analysis : AnalysisResult)
    (ha : analyzer input.task input.task_id = Except.ok analysis)
    (hcaps : ¬analysis.detected_capabilities = [])
    (hmatch : ∃ cap ∈ analysis.detected_capabilities,
      AgentRegistry.find_by_capability reg cap ≠ [])
    (hsyn : ∀ execs, ∃ out, synthesizer input.task execs input.task_id = Except.ok out) :
    (∃ r : RouterResult,
      SmartRouter.route reg analyzer synthesizer noHandler input Unit.unit =
        (Except.ok r, Unit.unit) ∧
      r.status = "completed" ∧
      (r.synthesis.isSome = true ↔ 1 < (r.executions.filter (fun e => e.success)).length) ∧
      (∀ e, r.executions.filter (fun e => e.success) = [e] →
        r.synthesis = none ∧ r.final_output = e.output_text) ∧
      (r.executions.filter (fun e => e.success) = [] →
        r.synthesis = none ∧ r.final_output = "All executions failed.")) ∧
    (∀ E : List ExecutionResult,
      should_synthesize E = "synthesize" ↔ 1 < (E.filter (fun e => e.success)).length) := by
  constructor
  · have hany : (discoverPure reg analysis.detected_capabilities).any
        (fun m => m.matched) = true := by
      obtain ⟨cap, hmem, hne⟩ := hmatch
      apply List.any_eq_true.mpr
      refine ⟨_, List.mem_map_of_mem _ hmem, ?_⟩
      have hlen : 0 < (AgentRegistry.find_by_capability reg cap).length :=
        List.length_pos.mpr hne
      simp [hlen]
    have hrun := route_noHandler_run reg analyzer synthesizer input analysis ha hcaps hany
    rcases hfil : (execAllPure reg analysis.subtasks
        (discoverPure reg analysis.detected_capabilities)).filter
        (fun e => e.success) with - | ⟨e1, - | ⟨e2, tl⟩⟩
    · simp only [hfil, List.isEmpty_nil] at hrun
      norm_num at hrun
      refine ⟨_, hrun, ?_, ?_, ?_⟩ <;> simp [hfil]
    · have hnotgt : ¬([e1].length > 1) := by simp
      simp only [hfil, List.isEmpty_cons, if_neg hnotgt] at hrun
      norm_num at hrun
      refine ⟨_, hrun, ?_, ?_, ?_⟩ <;> simp [hfil]
    · obtain ⟨out, hout⟩ := hsyn (e1 :: e2 :: tl)
      have hgt : (e1 :: e2 :: tl).length > 1 := by simp
      simp only [hfil, List.isEmpty_cons, if_pos hgt, hout] at hrun
      norm_num at hrun
      refine ⟨_, hrun, ?_, ?_, ?_⟩ <;> simp [hfil]
  · intro E
    by_cases h1 : (E.filter (fun e => e.success)).length > 1
    · simp [should_synthesize, h1]
    · simp only [should_synthesize, if_neg h1]
      constructor
      · intro h
        exact absurd h (by decide)
      · intro h
        exact absurd h h1

/-- Witness for C1: two capabilities, two distinct successful agents, so the
run synthesizes and completes. -/
theorem conditional_synthesis_threshold_witness :
    ∃ r : RouterResult,
      SmartRouter.route [okAgent, okAgent2]
        (fun task tid => Except.ok ⟨tid, task, ["calculation", "research"],
          [("calculation", "calc it"), ("research", "find it")]⟩)
        (fun _ execs _ => Except.ok ⟨"combined", execs.map (fun e => e.agent_id), 5, 6⟩)
        noHandler ⟨"do stuff", "t7"⟩ Unit.unit = (Except.ok r, Unit.unit) ∧
      r.status = "completed" ∧
      (r.synthesis.isSome = true ↔
        1 < (r.executions.filter (fun e => e.success)).length) := by
  obtain ⟨⟨r, hr, hst, hiff, -, -⟩, -⟩ :=
    conditional_synthesis_threshold [okAgent, okAgent2]
      (fun task tid => Except.ok ⟨tid, task, ["calculation", "research"],
        [("calculation", "calc it"), ("research", "find it")]⟩)
      (fun _ execs _ => Except.ok ⟨"combined", execs.map (fun e => e.agent_id), 5, 6⟩)
      ⟨"do stuff", "t7"⟩
      ⟨"t7", "do stuff", ["calculation", "research"],
        [("calculation", "calc it"), ("research", "find it")]⟩
      rfl (by decide)
      ⟨"calculation", by decide,
        by simp [AgentRegistry.find_by_capability, okAgent, okAgent2]⟩
      (fun execs => ⟨_, rfl⟩)
  exact ⟨r, hr, hst, hiff⟩

/-- C2.  Short circuits: zero detected capabilities gives a completed result
with final output `No capabilities detected for this task.`, empty matches
and empty executions; detected capabilities with zero registry matches gives
a completed result with final output
`No agents found for required capabilities.` and no executions. -/
theorem short_circuit_cases
    (reg : AgentRegistry)
    (analyzer : String → String → Except String AnalysisResult)
    (synthesizer : String → List ExecutionResult → String → Except String SynthOutput)
    (input : TaskInput) (analysis : AnalysisResult)
    (ha : analyzer input.task input.task_id = Except.ok analysis) :
    (analysis.detected_capabilities = [] →
      SmartRouter.route reg analyzer synthesizer noHandler input Unit.unit =
        (Except.ok
          { task_id := input.task_id
            original_task := input.task
            analysis := analysis
            «matches» := []
            executions := []
            synthesis := none
            final_output := "No capabilities detected for this task."
            status := "completed"
            error := none }, Unit.unit)) ∧
    (¬analysis.detected_capabilities = [] →
      (∀ cap ∈ analysis.detected_capabilities,
        AgentRegistry.find_by_capability reg cap = []) →
      SmartRouter.route reg analyzer synthesizer noHandler input Unit.unit =
        (Except.ok
          { task_id := input.task_id
            original_task := input.task
            analysis := analysis
            «matches» := analysis.detected_capabilities.map
              (fun c => { capability := c, agent_ids := [], matched := false })
            executions := []
            synthesis := none
            final_output := "No agents found for required capabilities."
            status := "completed"
            error := none }, Unit.unit)) := by
  constructor
  · intro hempty
    simp [SmartRouter.route, noHandler_emit, ha, hempty]
  · intro hne hnomatch
    have hms : discoverPure reg analysis.detected_capabilities =
        analysis.detected_capabilities.map
          (fun c => { capability := c, agent_ids := [], matched := false }) := by
      unfold discoverPure
      apply List.map_congr_left
      intro c hc
      simp [hnomatch c hc]
    have hanyf : ((analysis.detected_capabilities.map
        (fun c => ({ capability := c, agent_ids := [], matched := false } :
          CapabilityMatch))).any (fun m => m.matched)) = false := by
      simp [List.any_map, Function.comp]
    simp only [SmartRouter.route, noHandler_emit, ha, if_neg hne,
      discover_loop_noHandler, hms, hanyf]
    simp

/-- Witness for C2: an analyzer that detects nothing short-circuits with the
exact no-capabilities message. -/
theorem short_circuit_cases_witness :
    SmartRouter.route [] (fun task tid => Except.ok ⟨tid, task, [], []⟩)
      (fun _ _ _ => Except.error "unused") noHandler ⟨"mystery", "t8"⟩ Unit.unit =
      (Except.ok
        { task_id := "t8"
          original_task := "mystery"
          analysis := ⟨"t8", "mystery", [], []⟩
          «matches» := []
          executions := []
          synthesis := none
          final_output := "No capabilities detected for this task."
          status := "completed"
          error := none }, Unit.unit) :=
  (short_circuit_cases [] (fun task tid => Except.ok ⟨tid, task, [], []⟩)
    (fun _ _ _ => Except.error "unused") ⟨"mystery", "t8"⟩
    ⟨"t8", "mystery", [], []⟩ rfl).1 rfl

/-- A sink that never raises (the well-behaved SSE consumers the transport
layer attaches). -/
def Handler.NeverRaises (h : Handler σ) : Prop :=
  ∀ e s, ∃ s', h.emit e s = Except.ok s'

theorem noHandler_neverRaises : Handler.NeverRaises noHandler :=
  fun _ s => ⟨s, rfl⟩

theorem traceHandler_neverRaises : Handler.NeverRaises traceHandler :=
  fun e s => ⟨s ++ [e], rfl⟩

theorem discover_loop_total (h : Handler σ) (hnr : Handler.NeverRaises h)
    (reg : AgentRegistry) (task_id : String) (caps : List String) :
    ∀ s, ∃ s', discover_loop h reg task_id caps s =
      (Except.ok (discoverPure reg caps), s') := by
  induction caps with
  | nil => exact fun s => ⟨s, rfl⟩
  | cons c rest ih =>
    intro s
    obtain ⟨s1, h1⟩ := hnr (Event.discovery_started task_id c) s
    obtain ⟨s2, h2⟩ := hnr (Event.discovery_completed task_id c
      ((AgentRegistry.find_by_capability reg c).map (fun a => a.id))
      (decide (0 < (AgentRegistry.find_by_capability reg c).length))) s1
    obtain ⟨s3, h3⟩ := ih s2
    exact ⟨s3, by simp [discover_loop, discoverPure, h1, h2, h3]⟩

theorem execute_on_agent_total (h : Handler σ) (hnr : Handler.NeverRaises h)
    (agent : Agent) (capability subtask task_id : String) (s : σ) :
    ∃ s', TaskExecutor.execute_on_agent h agent capability subtask task_id s =
      (Except.ok (execResultOf agent capability subtask), s') := by
  obtain ⟨s1, h1⟩ := hnr (Event.execution_started task_id agent.id agent.name
    capability subtask) s
  cases hrec : agent.receive subtask with
  | ok response =>
    obtain ⟨s2, h2⟩ := hnr (Event.execution_completed task_id agent.id capability
      true none) s1
    exact ⟨s2, by simp [TaskExecutor.execute_on_agent, execResultOf, hrec, h1, h2,
      RM.bind_eq, RM.pure_eq, RM.bind, RM.pure, RM.tryCatch, RM.liftExcept,
      RM.throw, emitE]⟩
  | error e =>
    obtain ⟨s2, h2⟩ := hnr (Event.execution_completed task_id agent.id capability
      false (some e)) s1
    exact ⟨s2, by simp [TaskExecutor.execute_on_agent, execResultOf, hrec, h1, h2,
      RM.bind_eq, RM.pure_eq, RM.bind, RM.pure, RM.tryCatch, RM.liftExcept,
      RM.throw, emitE]⟩

theorem execute_all_total (h : Handler σ) (hnr : Handler.NeverRaises h)
    (reg : AgentRegistry) (subtasks : List (String × String)) (task_id : String)
    (ms : List CapabilityMatch) :
    ∀ s, ∃ s', TaskExecutor.execute_all h reg subtasks task_id ms s =
      (Except.ok (execAllPure reg subtasks ms), s') := by
  induction ms with
  | nil => exact fun s => ⟨s, rfl⟩
  | cons m rest ih =>
    intro s
    by_cases hm : m.matched = false ∨ m.agent_ids = []
    · have helig : eligibleMatch subtasks m = false := by
        rcases hm with hm | hm <;> simp [eligibleMatch, hm]
      obtain ⟨s1, h1⟩ := ih s
      exact ⟨s1, by simp [TaskExecutor.execute_all, execAllPure, hm, helig, h1]⟩
    · push_neg at hm
      obtain ⟨hm1, hm2⟩ := hm
      by_cases hsub : lookupSubtask subtasks m.capability = ""
      · have helig : eligibleMatch subtasks m = false := by
          simp [eligibleMatch, hsub]
        obtain ⟨s1, h1⟩ := ih s
        exact ⟨s1, by simp [TaskExecutor.execute_all, execAllPure, hm1, hm2, hsub,
          helig, h1]⟩
      · have helig : eligibleMatch subtasks m = true := by
          simp only [Bool.not_eq_false] at hm1
          simp [eligibleMatch, hm1, hm2, hsub]
        cases hget : AgentRegistry.get reg (m.agent_ids.headD "") with
        | none =>
          obtain ⟨s1, h1⟩ := ih s
          have hget2 := hget
          simp only [List.headD_eq_head?] at hget2
          exact ⟨s1, by simp [TaskExecutor.execute_all, execAllPure, hm1, hm2, hsub,
            helig, hget2, h1]⟩
        | some agent =>
          obtain ⟨s1, h1⟩ := execute_on_agent_total h hnr agent m.capability
            (lookupSubtask subtasks m.capability) task_id s
          obtain ⟨s2, h2⟩ := ih s1
          have hget2 := hget
          simp only [List.headD_eq_head?] at hget2
          exact ⟨s2, by simp [TaskExecutor.execute_all, execAllPure, hm1, hm2, hsub,
            helig, hget2, h1, h2, RM.bind_eq, RM.pure_eq, RM.bind, RM.pure]⟩

theorem route_total_run (h : Handler σ) (hnr : Handler.NeverRaises h)
    (reg : AgentRegistry)
    (analyzer : String → String → Except String AnalysisResult)
    (synthesizer : String → List ExecutionResult → String → Except String SynthOutput)
    (input : TaskInput) (s : σ) :
    (∃ s', SmartRouter.route reg analyzer synthesizer h input s =
      ((SmartRouter.route reg analyzer synthesizer noHandler input Unit.unit).1, s')) ∧
    (∃ r, (SmartRouter.route reg analyzer synthesizer noHandler input Unit.unit).1 =
      Except.ok r) := by
  obtain ⟨s1, hs1⟩ := hnr (Event.routing_started input.task_id input.task) s
  obtain ⟨s2, hs2⟩ := hnr (Event.analysis_started input.task_id) s1
  cases hana : analyzer input.task input.task_id with
  | error e =>
    obtain ⟨s3, hs3⟩ := hnr (Event.routing_completed input.task_id "failed" (some e)) s2
    refine ⟨⟨s3, ?_⟩, ?_⟩ <;>
      simp [SmartRouter.route, route_fail, noHandler_emit, hana, hs1, hs2, hs3]
  | ok analysis =>
    obtain ⟨s3, hs3⟩ := hnr (Event.analysis_completed input.task_id
      analysis.detected_capabilities analysis.subtasks) s2
    by_cases hdet : analysis.detected_capabilities = []
    · obtain ⟨s4, hs4⟩ := hnr (Event.routing_completed input.task_id "completed" none) s3
      rw [hdet] at hs3
      refine ⟨⟨s4, ?_⟩, ?_⟩ <;>
        simp [SmartRouter.route, noHandler_emit, hana, hdet, hs1, hs2, hs3, hs4]
    · obtain ⟨s4, hs4⟩ := discover_loop_total h hnr reg input.task_id
        analysis.detected_capabilities s3
      cases hany : (discoverPure reg analysis.detected_capabilities).any
          (fun m => m.matched) with
      | false =>
        obtain ⟨s5, hs5⟩ := hnr (Event.routing_completed input.task_id "completed" none) s4
        refine ⟨⟨s5, ?_⟩, ?_⟩ <;>
          simp [SmartRouter.route, noHandler_emit, discover_loop_noHandler, hana,
            hdet, hany, hs1, hs2, hs3, hs4, hs5]
      | true =>
        obtain ⟨s5, hs5⟩ := execute_all_total h hnr reg analysis.subtasks
          input.task_id (discoverPure reg analysis.detected_capabilities) s4
        rcases hfil : (execAllPure reg analysis.subtasks
            (discoverPure reg analysis.detected_capabilities)).filter
            (fun e => e.success) with - | ⟨e1, - | ⟨e2, tl⟩⟩
        · obtain ⟨s6, hs6⟩ := hnr (Event.routing_completed input.task_id
            "completed" none) s5
          refine ⟨⟨s6, ?_⟩, ?_⟩ <;>
            simp [SmartRouter.route, noHandler_emit, discover_loop_noHandler,
              execute_all_noHandler, hana, hdet, hany, hfil, hs1, hs2, hs3, hs4,
              hs5, hs6]
        · obtain ⟨s6, hs6⟩ := hnr (Event.routing_completed input.task_id
            "completed" none) s5
          refine ⟨⟨s6, ?_⟩, ?_⟩ <;>
            simp [SmartRouter.route, noHandler_emit, discover_loop_noHandler,
              execute_all_noHandler, hana, hdet, hany, hfil, hs1, hs2, hs3, hs4,
              hs5, hs6]
        · obtain ⟨s6, hs6⟩ := hnr (Event.synthesis_started input.task_id
            (e1.agent_id :: e2.agent_id :: tl.map (fun e => e.agent_id))) s5
          cases hsyn : synthesizer input.task (e1 :: e2 :: tl) input.task_id with
          | ok syn =>
            obtain ⟨s7, hs7⟩ := hnr (Event.synthesis_completed input.task_id
              syn.sources) s6
            obtain ⟨s8, hs8⟩ := hnr (Event.routing_completed input.task_id
              "completed" none) s7
            refine ⟨⟨s8, ?_⟩, ?_⟩ <;>
              simp [SmartRouter.route, noHandler_emit, discover_loop_noHandler,
                execute_all_noHandler, hana, hdet, hany, hfil, hsyn, hs1, hs2,
                hs3, hs4, hs5, hs6, hs7, hs8]
          | error e =>
            obtain ⟨s7, hs7⟩ := hnr (Event.routing_completed input.task_id
              "failed" (some e)) s6
            refine ⟨⟨s7, ?_⟩, ?_⟩ <;>
              simp [SmartRouter.route, route_fail, noHandler_emit,
                discover_loop_noHandler, execute_all_noHandler, hana, hdet, hany,
                hfil, hsyn, hs1, hs2, hs3, hs4, hs5, hs6, hs7]

/-- A sink that raises on every event. -/
def raisingHandler : Handler Unit :=
  ⟨fun _ _ => Except.error "handler boom"⟩

/-- C9 (amended).  Noninterference holds for sinks that never raise: any two
such sinks (in particular zero sinks, `noHandler`) yield the identical
`RouterResult` — status, matches, executions, synthesis, final output and
error — and emission never fails the orchestration. -/
theorem route_noninterference_for_nonraising_sinks
    {σ1 σ2 : Type} (h1 : Handler σ1) (h2 : Handler σ2)
    (hnr1 : Handler.NeverRaises h1) (hnr2 : Handler.NeverRaises h2)
    (reg : AgentRegistry)
    (analyzer : String → String → Except String AnalysisResult)
    (synthesizer : String → List ExecutionResult → String → Except String SynthOutput)
    (input : TaskInput) (s1 : σ1) (s2 : σ2) :
    ∃ (r : RouterResult) (s1f : σ1) (s2f : σ2),
      SmartRouter.route reg analyzer synthesizer h1 input s1 = (Except.ok r, s1f) ∧
      SmartRouter.route reg analyzer synthesizer h2 input s2 = (Except.ok r, s2f) := by
  obtain ⟨⟨s1f, e1⟩, r, hr⟩ := route_total_run h1 hnr1 reg analyzer synthesizer input s1
  obtain ⟨⟨s2f, e2⟩, -⟩ := route_total_run h2 hnr2 reg analyzer synthesizer input s2
  exact ⟨r, s1f, s2f, by rw [e1, hr], by rw [e2, hr]⟩

/-- Witness for the amended C9: a tracing sink and no sink give the same
result on a concrete task. -/
theorem route_noninterference_for_nonraising_sinks_witness :
    ∃ (r : RouterResult) (s1f : List Event) (s2f : Unit),
      SmartRouter.route [okAgent]
        (fun task tid => Except.ok ⟨tid, task, ["calculation"], [("calculation", "x")]⟩)
        (fun _ _ _ => Except.error "unused") traceHandler ⟨"calc", "t10"⟩ [] =
        (Except.ok r, s1f) ∧
      SmartRouter.route [okAgent]
        (fun task tid => Except.ok ⟨tid, task, ["calculation"], [("calculation", "x")]⟩)
        (fun _ _ _ => Except.error "unused") noHandler ⟨"calc", "t10"⟩ Unit.unit =
        (Except.ok r, s2f) :=
  route_noninterference_for_nonraising_sinks traceHandler noHandler
    traceHandler_neverRaises noHandler_neverRaises [okAgent]
    (fun task tid => Except.ok ⟨tid, task, ["calculation"], [("calculation", "x")]⟩)
    (fun _ _ _ => Except.error "unused") ⟨"calc", "t10"⟩ [] Unit.unit

/-- Counterexample to C9 as stated: attaching a sink that raises does change
the outcome — the very same task that completes normally with no sink makes
`route` itself raise (the caller gets an exception, not a `RouterResult`),
because the initial `routing_started` emit precedes the `try:` block. -/
theorem event_sink_interference_counterexample :
    (SmartRouter.route [] (fun task tid => Except.ok ⟨tid, task, [], []⟩)
      (fun _ _ _ => Except.error "unused") raisingHandler ⟨"mystery", "t11"⟩
      Unit.unit).1 = Except.error "handler boom" ∧
    (SmartRouter.route [] (fun task tid => Except.ok ⟨tid, task, [], []⟩)
      (fun _ _ _ => Except.error "unused") noHandler ⟨"mystery", "t11"⟩
      Unit.unit).1 =
      Except.ok
        { task_id := "t11"
          original_task := "mystery"
          analysis := ⟨"t11", "mystery", [], []⟩
          «matches» := []
          executions := []
          synthesis := none
          final_output := "No capabilities detected for this task."
          status := "completed"
          error := none } := by
  constructor
  · rfl
  · rfl

/-- Recognizer for `execution_started` events. -/
def isExecutionStarted : Event → Bool
  | Event.execution_started _ _ _ _ _ => true
  | _ => false

/-- Recognizer for `execution_completed` events. -/
def isExecutionCompleted : Event → Bool
  | Event.execution_completed _ _ _ _ _ => true
  | _ => false

/-- The fan-out/await-all discipline claimed by the spec, stated on an event
trace: every execution of the batch is launched before any is awaited, i.e.
no `execution_started` event may occur after an `execution_completed` event. -/
def noStartAfterComplete : List Event → Bool
  | [] => true
  | e :: rest =>
    if isExecutionCompleted e then rest.all (fun x => !isExecutionStarted x)
    else noStartAfterComplete rest

/-- The event block one `execute_on_agent` call appends to the trace: its
start event immediately followed by its completion event. -/
def execTraceOf (agent : Agent) (capability subtask task_id : String) :
    List Event :=
  match agent.receive subtask with
  | Except.ok _ =>
    [Event.execution_started task_id agent.id agent.name capability subtask,
     Event.execution_completed task_id agent.id capability true none]
  | Except.error e =>
    [Event.execution_started task_id agent.id agent.name capability subtask,
     Event.execution_completed task_id agent.id capability false (some e)]

theorem execute_on_agent_trace (agent : Agent)
    (capability subtask task_id : String) (t : List Event) :
    TaskExecutor.execute_on_agent traceHandler agent capability subtask task_id t =
      (Except.ok (execResultOf agent capability subtask),
        t ++ execTraceOf agent capability subtask task_id) := by
  cases hrec : agent.receive subtask <;>
    simp [TaskExecutor.execute_on_agent, execResultOf, execTraceOf, hrec,
      RM.bind_eq, RM.pure_eq, RM.bind, RM.pure, RM.tryCatch, RM.liftExcept,
      RM.throw, emitE, traceHandler]

/-- C4 (amended).  Executions within one `execute_all` batch are not launched
together: they run strictly sequentially in match-list order.  The emitted
trace is the concatenation, one eligible match at a time, of that execution's
start event immediately followed by its completion event; the batch still
resolves every member, and a failing execution does not cancel the later
matches (every eligible match contributes its block and its result). -/
theorem execute_all_sequential_trace (reg : AgentRegistry)
    (subtasks : List (String × String)) (task_id : String)
    (ms : List CapabilityMatch)
    (hreg : ∀ m ∈ ms, eligibleMatch subtasks m = true →
      (AgentRegistry.get reg (m.agent_ids.headD "")).isSome = true) :
    ∀ t0 : List Event,
      TaskExecutor.execute_all traceHandler reg subtasks task_id ms t0 =
        (Except.ok (execAllPure reg subtasks ms),
          t0 ++ ((ms.filter (eligibleMatch subtasks)).map
            (fun m => execTraceOf ((AgentRegistry.get reg (m.agent_ids.headD "")).getD default)
              m.capability (lookupSubtask subtasks m.capability) task_id)).flatten) := by
  induction ms with
  | nil => intro t0; simp [TaskExecutor.execute_all, execAllPure, RM.pure]
  | cons m rest ih =>
    intro t0
    have ihrest := ih (fun x hx hex => hreg x (List.mem_cons_of_mem m hx) hex)
    by_cases hm : m.matched = false ∨ m.agent_ids = []
    · have helig : eligibleMatch subtasks m = false := by
        rcases hm with hm | hm <;> simp [eligibleMatch, hm]
      simp [TaskExecutor.execute_all, execAllPure, hm, helig, ihrest]
    · push_neg at hm
      obtain ⟨hm1, hm2⟩ := hm
      by_cases hsub : lookupSubtask subtasks m.capability = ""
      · have helig : eligibleMatch subtasks m = false := by
          simp [eligibleMatch, hsub]
        simp [TaskExecutor.execute_all, execAllPure, hm1, hm2, hsub, helig, ihrest]
      · have helig : eligibleMatch subtasks m = true := by
          simp only [Bool.not_eq_false] at hm1
          simp [eligibleMatch, hm1, hm2, hsub]
        have hsome := hreg m (List.mem_cons_self m rest) helig
        obtain ⟨agent, hget⟩ := Option.isSome_iff_exists.mp hsome
        simp only [List.headD_eq_head?] at hget
        simp [TaskExecutor.execute_all, execAllPure, hm1, hm2, hsub, helig, hget,
          ihrest, execute_on_agent_trace, RM.bind_eq, RM.bind, RM.pure_eq, RM.pure]

/-- Witness for the amended C4: a failing first execution is fully awaited
(started then completed with its error) before the second is launched, and
the second still runs. -/
theorem execute_all_sequential_trace_witness :
    TaskExecutor.execute_all traceHandler [badAgent, okAgent]
      [("estimation", "guess"), ("calculation", "add")] "t12"
      [⟨"estimation", ["b1"], true⟩, ⟨"calculation", ["a1"], true⟩] [] =
      (Except.ok (execAllPure [badAgent, okAgent]
          [("estimation", "guess"), ("calculation", "add")]
          [⟨"estimation", ["b1"], true⟩, ⟨"calculation", ["a1"], true⟩]),
        [] ++ (([⟨"estimation", ["b1"], true⟩,
            (⟨"calculation", ["a1"], true⟩ : CapabilityMatch)].filter
              (eligibleMatch [("estimation", "guess"), ("calculation", "add")])).map
          (fun m => execTraceOf
            ((AgentRegistry.get [badAgent, okAgent] (m.agent_ids.headD "")).getD default)
            m.capability
            (lookupSubtask [("estimation", "guess"), ("calculation", "add")] m.capability)
            "t12")).flatten) :=
  execute_all_sequential_trace [badAgent, okAgent]
    [("estimation", "guess"), ("calculation", "add")] "t12"
    [⟨"estimation", ["b1"], true⟩, ⟨"calculation", ["a1"], true⟩]
    (by decide) []

/-- Counterexample to C4 as stated: with two matched capabilities the batch's
trace interleaves — the first execution completes before the second is
launched — violating the launch-all-before-any-await discipline. -/
theorem execute_all_not_fan_out_counterexample :
    TaskExecutor.execute_all traceHandler [okAgent, okAgent2]
      [("calculation", "c sub"), ("research", "r sub")] "t13"
      [⟨"calculation", ["a1"], true⟩, ⟨"research", ["a2"], true⟩] [] =
      (Except.ok
        [⟨"a1", "Agent One", "calculation", "c sub", "ok:c sub", true, none, 1, 2⟩,
         ⟨"a2", "Agent Two", "research", "r sub", "res:r sub", true, none, 3, 4⟩],
        [Event.execution_started "t13" "a1" "Agent One" "calculation" "c sub",
         Event.execution_completed "t13" "a1" "calculation" true none,
         Event.execution_started "t13" "a2" "Agent Two" "research" "r sub",
         Event.execution_completed "t13" "a2" "research" true none]) ∧
    noStartAfterComplete
      [Event.execution_started "t13" "a1" "Agent One" "calculation" "c sub",
       Event.execution_completed "t13" "a1" "calculation" true none,
       Event.execution_started "t13" "a2" "Agent Two" "research" "r sub",
       Event.execution_completed "t13" "a2" "research" true none] = false := by
  constructor
  · rfl
  · rfl

/-- The `StepResult` recorded for a successful step. -/
def mkStepResult (agent : ChainStepAgent) (index : Nat) (input : String)
    (tr : TransformResult) : StepResult :=
  { step_name := agent.step_name
    step_index := index
    input_text := input
    output_text := tr.text
    model := tr.model
    tokensInput := tr.inputTokens
    tokensOutput := tr.outputTokens }

/-- Pure description of the pipeline for-loop under a non-raising sink. -/
def run_steps_pure (index : Nat) (current : String) :
    List ChainStepAgent → StepsOutcome
  | [] => ⟨[], current, none, none⟩
  | agent :: rest =>
    match agent.transform current with
    | Except.error e =>
      ⟨[], current, some (step_failed_msg agent.step_name e), none⟩
    | Except.ok tr =>
      let o := run_steps_pure (index + 1) tr.text rest
      ⟨mkStepResult agent index current tr :: o.steps, o.current, o.err, o.raised⟩

theorem run_steps_noHandler (pipeline_id : String) :
    ∀ (agents : List ChainStepAgent) (index : Nat) (current : String) (s : Unit),
      run_steps noHandler pipeline_id index current agents s =
        (run_steps_pure index current agents, s) := by
  intro agents
  induction agents with
  | nil => intro index current s; rfl
  | cons agent rest ih =>
    intro index current s
    cases htr : agent.transform current with
    | error e => simp [run_steps, run_steps_pure, htr, noHandler_emit]
    | ok tr =>
      cases rest with
      | nil => simp [run_steps, run_steps_pure, htr, noHandler_emit, mkStepResult]
      | cons b rest2 =>
        have ih2 := ih (index + 1) tr.text s
        conv_lhs => rw [run_steps]
        simp only [noHandler_emit, htr, ih2]
        conv_rhs => rw [run_steps_pure]
        simp [htr, mkStepResult]

theorem run_steps_pure_append (pre : List ChainStepAgent) :
    ∀ (rest : List ChainStepAgent) (index : Nat) (current : String)
      (srs : List StepResult) (cur : String),
      run_steps_pure index current pre = ⟨srs, cur, none, none⟩ →
      run_steps_pure index current (pre ++ rest) =
        (let o := run_steps_pure (index + pre.length) cur rest
         ⟨srs ++ o.steps, o.current, o.err, o.raised⟩) := by
  induction pre with
  | nil =>
    intro rest index current srs cur hpre
    obtain ⟨rfl, rfl⟩ : srs = [] ∧ cur = current := by
      cases hpre; exact ⟨rfl, rfl⟩
    simp [run_steps_pure]
  | cons agent pre2 ih =>
    intro rest index current srs cur hpre
    cases htr : agent.transform current with
    | error e =>
      simp [run_steps_pure, htr] at hpre
    | ok tr =>
      simp only [run_steps_pure, htr] at hpre
      have h1 : mkStepResult agent index current tr ::
          (run_steps_pure (index + 1) tr.text pre2).steps = srs :=
        congrArg StepsOutcome.steps hpre
      have h2 : (run_steps_pure (index + 1) tr.text pre2).current = cur :=
        congrArg StepsOutcome.current hpre
      have h3 : (run_steps_pure (index + 1) tr.text pre2).err = none :=
        congrArg StepsOutcome.err hpre
      have h4 : (run_steps_pure (index + 1) tr.text pre2).raised = none :=
        congrArg StepsOutcome.raised hpre
      have hosplit : run_steps_pure (index + 1) tr.text pre2 =
          ⟨(run_steps_pure (index + 1) tr.text pre2).steps, cur, none, none⟩ :=
        calc run_steps_pure (index + 1) tr.text pre2
            = ⟨(run_steps_pure (index + 1) tr.text pre2).steps,
                (run_steps_pure (index + 1) tr.text pre2).current,
                (run_steps_pure (index + 1) tr.text pre2).err,
                (run_steps_pure (index + 1) tr.text pre2).raised⟩ := rfl
          _ = ⟨(run_steps_pure (index + 1) tr.text pre2).steps, cur, none, none⟩ := by
              rw [h2, h3, h4]
      have hrec := ih rest (index + 1) tr.text
        (run_steps_pure (index + 1) tr.text pre2).steps cur hosplit
      have hidx : index + 1 + pre2.length = index + (pre2.length + 1) := by omega
      simp only [List.cons_append, run_steps_pure, htr, List.length_cons,
        hidx, ← h1]
      simp [hrec, hidx]

/-- C8.  Chain stop-on-error: whenever the steps before position `i` all
succeed (producing `srs`, with `cur` the text flowing into step `i`) and step
`i`'s transform raises `e`, the pipeline records exactly `srs` (nothing from
step `i` or later steps, which never run), its status is `failed`, and its
error message names the failing step. -/
theorem chain_pipeline_stop_on_error
    (pre : List ChainStepAgent) (agent : ChainStepAgent)
    (post : List ChainStepAgent) (input : PipelineInput)
    (srs : List StepResult) (cur : String) (e : String)
    (hpre : run_steps_pure 0 input.prompt pre = ⟨srs, cur, none, none⟩)
    (hfail : agent.transform cur = Except.error e) :
    ChainPipeline.run noHandler (pre ++ agent :: post) input Unit.unit =
      (Except.ok
        { pipeline_id := input.pipeline_id
          prompt := input.prompt
          steps := srs
          final_output := "Error: " ++ step_failed_msg agent.step_name e
          status := "failed"
          error := some (step_failed_msg agent.step_name e) }, Unit.unit) := by
  have hloop := run_steps_pure_append pre (agent :: post) 0 input.prompt srs cur hpre
  simp only [run_steps_pure, hfail] at hloop
  simp [ChainPipeline.run, noHandler_emit, run_steps_noHandler, hloop]

/-- A writer step that appends `+w`. -/
def writerStep : ChainStepAgent :=
  { step_name := "Writer", model := "m1",
    transform := fun t => Except.ok ⟨t ++ "+w", "m1", 1, 1⟩ }

/-- An editor step whose transform raises `boom`. -/
def editorStep : ChainStepAgent :=
  { step_name := "Editor", model := "m2",
    transform := fun _ => Except.error "boom" }

/-- A publisher step that appends `+p`. -/
def publisherStep : ChainStepAgent :=
  { step_name := "Publisher", model := "m3",
    transform := fun t => Except.ok ⟨t ++ "+p", "m3", 1, 1⟩ }

/-- Witness for C8: the spec's concrete scenario — a 3-step chain whose second
step raises keeps exactly step 1's record, fails, and names the editor step. -/
theorem chain_pipeline_stop_on_error_witness :
    ChainPipeline.run noHandler [writerStep, editorStep, publisherStep]
      ⟨"draft", "p1"⟩ Unit.unit =
      (Except.ok
        { pipeline_id := "p1"
          prompt := "draft"
          steps := [⟨"Writer", 0, "draft", "draft+w", "m1", 1, 1⟩]
          final_output := "Error: " ++ step_failed_msg "Editor" "boom"
          status := "failed"
          error := some (step_failed_msg "Editor" "boom") }, Unit.unit) :=
  chain_pipeline_stop_on_error [writerStep] editorStep [publisherStep]
    ⟨"draft", "p1"⟩ [⟨"Writer", 0, "draft", "draft+w", "m1", 1, 1⟩] "draft+w"
    "boom" rfl rfl

/-!
Lemmas about `pysplit`, enough to prove that a fenced response is parsed like
its unfenced payload.
-/

theorem dropPrefixQ_append (sep x : PyStr) : dropPrefixQ sep (sep ++ x) = some x := by
  induction sep with
  | nil => rfl
  | cons c cs ih => simp [dropPrefixQ, ih]

theorem dropPrefixQ_length (sep : PyStr) :
    ∀ s tail, dropPrefixQ sep s = some tail → s.length = sep.length + tail.length := by
  induction sep with
  | nil =>
    intro s tail h
    cases h
    simp
  | cons c cs ih =>
    intro s tail h
    cases s with
    | nil => cases h
    | cons d ds =>
      by_cases hcd : c = d
      · simp only [dropPrefixQ, if_pos hcd] at h
        have := ih ds tail h
        simp [this]
        omega
      · simp [dropPrefixQ, hcd] at h

theorem dropPrefixQ_cons_ne (hch c : Char) (tl x : PyStr) (hc : c ≠ hch) :
    dropPrefixQ (hch :: tl) (c :: x) = none := by
  have hne : hch ≠ c := fun h => hc h.symm
  simp [dropPrefixQ, hne]

theorem pysplitAux_ne_nil (sep : PyStr) (fuel : Nat) (s : PyStr) :
    pysplitAux sep fuel s ≠ [] := by
  match fuel, s with
  | 0, s => simp [pysplitAux]
  | fuel + 1, [] => simp [pysplitAux]
  | fuel + 1, c :: rest =>
    rw [pysplitAux]
    cases dropPrefixQ sep (c :: rest) with
    | some tail => simp
    | none =>
      cases pysplitAux sep fuel rest with
      | nil => simp
      | cons grp grps => simp

theorem pysplit_ne_nil (sep s : PyStr) : pysplit sep s ≠ [] := by
  unfold pysplit
  by_cases hsep : sep = []
  · simp [hsep]
  · simp only [if_neg hsep]
    exact pysplitAux_ne_nil sep (s.length + 1) s

theorem pysplitAux_fuel (sep : PyStr) (hsep : sep ≠ []) :
    ∀ fuel s, s.length + 1 ≤ fuel →
      pysplitAux sep fuel s = pysplitAux sep (s.length + 1) s := by
  intro fuel
  induction fuel using Nat.strong_induction_on with
  | _ fuel ih =>
    intro s hs
    cases fuel with
    | zero => omega
    | succ fuel =>
      cases s with
      | nil => rfl
      | cons c rest =>
        simp only [List.length_cons] at hs
        rw [pysplitAux, pysplitAux]
        cases hdp : dropPrefixQ sep (c :: rest) with
        | some tail =>
          have hlen := dropPrefixQ_length sep (c :: rest) tail hdp
          simp only [List.length_cons] at hlen
          have hsl : 1 ≤ sep.length := by
            cases sep with
            | nil => exact absurd rfl hsep
            | cons a b => simp
          have h1 : pysplitAux sep fuel tail = pysplitAux sep (tail.length + 1) tail :=
            ih fuel (by omega) tail (by omega)
          have h2 : pysplitAux sep (rest.length + 1) tail =
              pysplitAux sep (tail.length + 1) tail :=
            ih (rest.length + 1) (by omega) tail (by omega)
          simp only [List.length_cons]
          rw [h1, h2]
        | none =>
          have h1 : pysplitAux sep fuel rest = pysplitAux sep (rest.length + 1) rest :=
            ih fuel (by omega) rest (by omega)
          simp only [List.length_cons]
          rw [h1]

theorem pysplit_eq_aux (sep s : PyStr) (hsep : sep ≠ []) :
    pysplit sep s = pysplitAux sep (s.length + 1) s := by
  simp [pysplit, hsep]

theorem pysplit_cons_self (sep x : PyStr) (hsep : sep ≠ []) :
    pysplit sep (sep ++ x) = [] :: pysplit sep x := by
  obtain ⟨c, cs, rfl⟩ : ∃ c cs, sep = c :: cs := by
    cases sep with
    | nil => exact absurd rfl hsep
    | cons c cs => exact ⟨c, cs, rfl⟩
  rw [pysplit_eq_aux _ _ hsep, pysplit_eq_aux _ _ hsep]
  rw [List.cons_append]
  rw [show (c :: (cs ++ x)).length + 1 = ((cs ++ x).length + 1) + 1 from by simp]
  rw [pysplitAux]
  have hdp : dropPrefixQ (c :: cs) (c :: (cs ++ x)) = some x := by
    rw [← List.cons_append]
    exact dropPrefixQ_append (c :: cs) x
  rw [hdp]
  show [] :: pysplitAux (c :: cs) ((cs ++ x).length + 1) x =
    [] :: pysplitAux (c :: cs) (x.length + 1) x
  rw [pysplitAux_fuel _ hsep ((cs ++ x).length + 1) x
    (by simp only [List.length_append]; omega)]

theorem pysplit_scan (hch : Char) (tl : PyStr) (t x : PyStr)
    (hclean : ∀ c ∈ t, c ≠ hch) :
    pysplit (hch :: tl) (t ++ x) =
      (t ++ (pysplit (hch :: tl) x).headD []) :: (pysplit (hch :: tl) x).tail := by
  induction t with
  | nil =>
    cases hp : pysplit (hch :: tl) x with
    | nil => exact absurd hp (pysplit_ne_nil _ _)
    | cons g gs => simp [hp]
  | cons c t2 ih =>
    have hc : c ≠ hch := hclean c (List.mem_cons_self c t2)
    have ih2 := ih (fun d hd => hclean d (List.mem_cons_of_mem c hd))
    have hne : (hch :: tl : PyStr) ≠ [] := by simp
    rw [pysplit_eq_aux _ _ hne]
    rw [List.cons_append]
    rw [show (c :: (t2 ++ x)).length + 1 = ((t2 ++ x).length + 1) + 1 from by simp]
    rw [pysplitAux]
    rw [dropPrefixQ_cons_ne hch c tl (t2 ++ x) hc]
    rw [← pysplit_eq_aux _ _ hne]
    rw [ih2]
    simp

theorem extract_fenced (t : PyStr) (hnb : ∀ c ∈ t, c ≠ backquote) :
    extract_json_text (sepJson ++ (t ++ sepFence)) = t := by
  have hJshape : sepJson = backquote :: "``json".data := by decide
  have hFshape : sepFence = backquote :: "``".data := by decide
  have h1 : pysplit sepJson (sepJson ++ (t ++ sepFence)) =
      [] :: pysplit sepJson (t ++ sepFence) :=
    pysplit_cons_self sepJson (t ++ sepFence) (by decide)
  have h2 : pysplit sepJson (t ++ sepFence) = [t ++ sepFence] := by
    have hs := pysplit_scan backquote ("``json".data) t sepFence hnb
    rw [← hJshape] at hs
    have h3 : pysplit sepJson sepFence = [sepFence] := by decide
    rw [hs, h3]
    simp
  have h4 : pysplit sepFence (t ++ sepFence) = t :: [[]] := by
    have hs := pysplit_scan backquote ("``".data) t sepFence hnb
    rw [← hFshape] at hs
    have h5 : pysplit sepFence sepFence = [[], []] := by decide
    rw [hs, h5]
    simp
  simp [extract_json_text, h1, h2, h4]

theorem extract_unfenced (t : PyStr) (hnb : ∀ c ∈ t, c ≠ backquote) :
    extract_json_text t = t := by
  have hJshape : sepJson = backquote :: "``json".data := by decide
  have hFshape : sepFence = backquote :: "``".data := by decide
  have hJ : pysplit sepJson t = [t] := by
    have hs := pysplit_scan backquote ("``json".data) t [] hnb
    rw [← hJshape, List.append_nil] at hs
    have hnilJ : pysplit sepJson [] = [[]] := by decide
    rw [hs, hnilJ]
    simp
  have hF : pysplit sepFence t = [t] := by
    have hs := pysplit_scan backquote ("``".data) t [] hnb
    rw [← hFshape, List.append_nil] at hs
    have hnilF : pysplit sepFence [] = [[]] := by decide
    rw [hs, hnilF]
    simp
  simp [extract_json_text, hJ, hF]

theorem pysplit_cons_keep (sep : PyStr) (hsep : sep ≠ []) (c : Char) (x : PyStr)
    (hd : dropPrefixQ sep (c :: x) = none) (hx : pysplit sep x = [x]) :
    pysplit sep (c :: x) = [c :: x] := by
  rw [pysplit_eq_aux _ _ hsep]
  rw [show (c :: x).length + 1 = (x.length + 1) + 1 from by simp]
  rw [pysplitAux, hd]
  rw [← pysplit_eq_aux _ _ hsep, hx]

theorem dropPrefixQ_json_none (t : PyStr) (hj : t.take 4 ≠ "json".data) :
    dropPrefixQ ((Char.ofNat 106) :: (Char.ofNat 115) :: (Char.ofNat 111) ::
      (Char.ofNat 110) :: []) (t ++ sepFence) = none := by
  cases t with
  | nil => decide
  | cons c1 t1 =>
    by_cases h1 : Char.ofNat 106 = c1
    · subst h1
      cases t1 with
      | nil => decide
      | cons c2 t2 =>
        by_cases h2 : Char.ofNat 115 = c2
        · subst h2
          cases t2 with
          | nil => decide
          | cons c3 t3 =>
            by_cases h3 : Char.ofNat 111 = c3
            · subst h3
              cases t3 with
              | nil => decide
              | cons c4 t4 =>
                by_cases h4 : Char.ofNat 110 = c4
                · subst h4
                  exact absurd rfl hj
                · simp [dropPrefixQ, h4]
            · simp [dropPrefixQ, h3]
        · simp [dropPrefixQ, h2]
    · simp [dropPrefixQ, h1]

theorem extract_bare_fenced (t : PyStr) (hnb : ∀ c ∈ t, c ≠ backquote)
    (hj : t.take 4 ≠ "json".data) :
    extract_json_text (sepFence ++ (t ++ sepFence)) = t := by
  have hJshape : sepJson = backquote :: "``json".data := by decide
  have hFshape : sepFence = backquote :: "``".data := by decide
  have hJ7 : sepJson = backquote :: backquote :: backquote :: (Char.ofNat 106) ::
      (Char.ofNat 115) :: (Char.ofNat 111) :: (Char.ofNat 110) :: [] := by decide
  have h2 : pysplit sepJson (t ++ sepFence) = [t ++ sepFence] := by
    have hs := pysplit_scan backquote ("``json".data) t sepFence hnb
    rw [← hJshape] at hs
    have h3 : pysplit sepJson sepFence = [sepFence] := by decide
    rw [hs, h3]
    simp
  have hd2 : dropPrefixQ sepJson (backquote :: (t ++ sepFence)) = none := by
    cases t with
    | nil => decide
    | cons c t2 =>
      have hbc : backquote ≠ c := fun h => (hnb c (List.mem_cons_self c t2)) h.symm
      rw [hJ7]
      simp [dropPrefixQ, hbc]
  have hd1 : dropPrefixQ sepJson
      (backquote :: backquote :: (t ++ sepFence)) = none := by
    cases t with
    | nil => decide
    | cons c t2 =>
      have hbc : backquote ≠ c := fun h => (hnb c (List.mem_cons_self c t2)) h.symm
      rw [hJ7]
      simp [dropPrefixQ, hbc]
  have hd0 : dropPrefixQ sepJson
      (backquote :: backquote :: backquote :: (t ++ sepFence)) = none := by
    rw [hJ7]
    simp [dropPrefixQ, dropPrefixQ_json_none t hj]
  have hXfull : pysplit sepJson
      (backquote :: backquote :: backquote :: (t ++ sepFence)) =
      [backquote :: backquote :: backquote :: (t ++ sepFence)] := by
    apply pysplit_cons_keep sepJson (by decide) backquote _ hd0
    apply pysplit_cons_keep sepJson (by decide) backquote _ hd1
    exact pysplit_cons_keep sepJson (by decide) backquote _ hd2 h2
  have hFfull3 : sepFence ++ (t ++ sepFence) =
      backquote :: backquote :: backquote :: (t ++ sepFence) := by
    rw [show sepFence = backquote :: backquote :: backquote :: [] from by decide]
    simp
  have hnojson : pysplit sepJson (sepFence ++ (t ++ sepFence)) =
      [sepFence ++ (t ++ sepFence)] := by
    rw [hFfull3]
    exact hXfull
  have h4 : pysplit sepFence (t ++ sepFence) = t :: [[]] := by
    have hs := pysplit_scan backquote ("``".data) t sepFence hnb
    rw [← hFshape] at hs
    have h5 : pysplit sepFence sepFence = [[], []] := by decide
    rw [hs, h5]
    simp
  have hbare : pysplit sepFence (sepFence ++ (t ++ sepFence)) =
      [] :: (t :: [[]]) := by
    rw [pysplit_cons_self sepFence (t ++ sepFence) (by decide), h4]
  have hFt : pysplit sepFence t = [t] := by
    have hs := pysplit_scan backquote ("``".data) t [] hnb
    rw [← hFshape, List.append_nil] at hs
    have hnilF : pysplit sepFence [] = [[]] := by decide
    rw [hs, hnilF]
    simp
  simp [extract_json_text, hnojson, hbare, hFt]

/-- C7.  `analyze` is total — its Lean type already reflects that the whole
body sits under `try`/`except` and every raise (from the LLM call, from
`json.loads`, from the `.get` extraction) is caught: a raising LLM call and
unparseable output both degrade to the empty `AnalysisResult` for the task,
and a response wrapped in a fenced code block — the ```json form, or the bare
``` form for a payload not itself starting with `json` (such a payload would
trigger the ```json branch instead) — is parsed exactly like the unfenced
payload. -/
theorem analyze_never_raises_and_degrades
    (parse : PyStr → Except String (List String × List (String × String)))
    (task task_id : String) :
    (∀ think, (AnalyzerAgent.analyze think parse task task_id).task_id = task_id ∧
      (AnalyzerAgent.analyze think parse task task_id).original_task = task) ∧
    (∀ e, AnalyzerAgent.analyze (Except.error e) parse task task_id =
      emptyAnalysis task task_id) ∧
    (∀ s e, parse (pystrip (extract_json_text s)) = Except.error e →
      AnalyzerAgent.analyze (Except.ok s) parse task task_id =
        emptyAnalysis task task_id) ∧
    (∀ t, (∀ c ∈ t, c ≠ backquote) →
      AnalyzerAgent.analyze (Except.ok (sepJson ++ (t ++ sepFence))) parse task task_id =
        AnalyzerAgent.analyze (Except.ok t) parse task task_id) ∧
    (∀ t, (∀ c ∈ t, c ≠ backquote) → t.take 4 ≠ "json".data →
      AnalyzerAgent.analyze (Except.ok (sepFence ++ (t ++ sepFence))) parse task task_id =
        AnalyzerAgent.analyze (Except.ok t) parse task task_id) := by
  refine ⟨?_, ?_, ?_, ?_, ?_⟩
  · intro think
    cases think with
    | error e => simp [AnalyzerAgent.analyze, emptyAnalysis]
    | ok s =>
      cases hp : parse (pystrip (extract_json_text s)) with
      | error e => simp [AnalyzerAgent.analyze, emptyAnalysis, hp]
      | ok pr =>
        cases pr with
        | mk caps subs => simp [AnalyzerAgent.analyze, hp]
  · intro e
    rfl
  · intro s e hp
    simp [AnalyzerAgent.analyze, hp, emptyAnalysis]
  · intro t hnb
    simp only [AnalyzerAgent.analyze, extract_fenced t hnb, extract_unfenced t hnb]
  · intro t hnb hj
    simp only [AnalyzerAgent.analyze, extract_bare_fenced t hnb hj,
      extract_unfenced t hnb]

/-- Witness for C7: a parser that always raises degrades to the empty
analysis, and a concrete payload wrapped in either fence form analyzes
exactly like the plain payload. -/
theorem analyze_never_raises_and_degrades_witness :
    AnalyzerAgent.analyze (Except.ok ("abc".data))
      (fun _ => Except.error "bad") "task" "t14" = emptyAnalysis "task" "t14" ∧
    AnalyzerAgent.analyze (Except.ok (sepJson ++ ("abc".data ++ sepFence)))
      (fun _ => Except.error "bad") "task" "t14" =
      AnalyzerAgent.analyze (Except.ok ("abc".data))
        (fun _ => Except.error "bad") "task" "t14" ∧
    AnalyzerAgent.analyze (Except.ok (sepFence ++ ("abc".data ++ sepFence)))
      (fun _ => Except.error "bad") "task" "t14" =
      AnalyzerAgent.analyze (Except.ok ("abc".data))
        (fun _ => Except.error "bad") "task" "t14" := by
  obtain ⟨-, -, h3, h4, h5⟩ :=
    analyze_never_raises_and_degrades (fun _ => Except.error "bad") "task" "t14"
  exact ⟨h3 ("abc".data) "bad" rfl, h4 ("abc".data) (by decide),
    h5 ("abc".data) (by decide) (by decide)⟩

/-- A witness of cyclicity: a non-empty subset of the scheduled capabilities
each of whose members has a prerequisite inside the subset (the vertex set of
any dependency cycle qualifies). -/
def CyclicAmong (dependencies : List (String × List String))
    (caps : List String) (C : List String) : Prop :=
  C ≠ [] ∧ (∀ c ∈ C, c ∈ caps) ∧
    ∀ c ∈ C, ∃ d ∈ C, d ∈ depsOf dependencies c

theorem topo_go_succ (dependencies : List (String × List String))
    (caps : List String) (fuel : Nat) (placed : List String) (a : String)
    (rest : List String) :
    topo_go dependencies caps (fuel + 1) placed (a :: rest) =
      (let ready := (a :: rest).filter (fun c =>
        (depsOf dependencies c).all
          (fun d => placed.contains d || !caps.contains d))
      if ready.isEmpty then Except.error "CyclicDependencyError"
      else
        match topo_go dependencies caps fuel (placed ++ ready)
            ((a :: rest).filter (fun c => !ready.contains c)) with
        | Except.ok lvls => Except.ok (ready :: lvls)
        | Except.error e => Except.error e) := rfl

theorem topo_go_cyclic (dependencies : List (String × List String))
    (caps : List String) (C : List String)
    (hC : CyclicAmong dependencies caps C) :
    ∀ fuel placed remaining, (∀ c ∈ C, c ∈ remaining) → (∀ c ∈ C, c ∉ placed) →
      topo_go dependencies caps fuel placed remaining =
        Except.error "CyclicDependencyError" := by
  obtain ⟨hne, hsub, hcyc⟩ := hC
  obtain ⟨c0, hc0⟩ : ∃ c, c ∈ C := by
    cases C with
    | nil => exact absurd rfl hne
    | cons a b => exact ⟨a, List.mem_cons_self a b⟩
  intro fuel
  induction fuel with
  | zero =>
    intro placed remaining hrem hpl
    cases hrm : remaining with
    | nil =>
      rw [hrm] at hrem
      exact absurd (hrem c0 hc0) (List.not_mem_nil c0)
    | cons a rest => rfl
  | succ fuel ih =>
    intro placed remaining hrem hpl
    cases hrm : remaining with
    | nil =>
      rw [hrm] at hrem
      exact absurd (hrem c0 hc0) (List.not_mem_nil c0)
    | cons a rest =>
      rw [hrm] at hrem
      have hCready : ∀ c ∈ C,
          c ∉ (a :: rest).filter (fun c =>
            (depsOf dependencies c).all
              (fun d => placed.contains d || !caps.contains d)) := by
        intro c hc hmem
        obtain ⟨d, hdC, hddep⟩ := hcyc c hc
        have hall := (List.mem_filter.mp hmem).2
        have hd := (List.all_eq_true.mp hall) d hddep
        have hdpl : placed.contains d = false := by
          cases hcontains : placed.contains d with
          | false => rfl
          | true => exact absurd (List.elem_iff.mp hcontains) (hpl d hdC)
        have hdcaps : caps.contains d = true := by
          exact List.elem_iff.mpr (hsub d hdC)
        rw [hdpl, hdcaps] at hd
        simp at hd
      by_cases hre : ((a :: rest).filter (fun c =>
          (depsOf dependencies c).all
            (fun d => placed.contains d || !caps.contains d))).isEmpty
      · rw [topo_go_succ]
        simp only [hre]
        rfl
      · have hrec := ih (placed ++ (a :: rest).filter (fun c =>
            (depsOf dependencies c).all
              (fun d => placed.contains d || !caps.contains d)))
          ((a :: rest).filter (fun c => !((a :: rest).filter (fun c =>
            (depsOf dependencies c).all
              (fun d => placed.contains d || !caps.contains d))).contains c))
          (by
            intro c hc
            apply List.mem_filter.mpr
            refine ⟨hrem c hc, ?_⟩
            simp only [Bool.not_eq_eq_eq_not, Bool.not_true]
            cases hcon : ((a :: rest).filter (fun c =>
                (depsOf dependencies c).all
                  (fun d => placed.contains d || !caps.contains d))).contains c with
            | false => rfl
            | true => exact absurd (List.elem_iff.mp hcon) (hCready c hc))
          (by
            intro c hc hmem
            rcases List.mem_append.mp hmem with hin | hin
            · exact hpl c hc hin
            · exact hCready c hc hin)
        rw [topo_go_succ]
        simp only [hre, Bool.false_eq_true, if_false, hrec]

/-- Levels are topologically sorted: every in-set prerequisite of a level's
capability was placed by an earlier level (or before `placed`). -/
def LevelsSorted (dependencies : List (String × List String))
    (caps : List String) : List String → List (List String) → Prop
  | _, [] => True
  | placed, lvl :: rest =>
    (∀ c ∈ lvl, ∀ d ∈ depsOf dependencies c, d ∈ caps → d ∈ placed) ∧
    LevelsSorted dependencies caps (placed ++ lvl) rest

theorem topo_go_sorted (dependencies : List (String × List String))
    (caps : List String) :
    ∀ fuel placed remaining lvls,
      topo_go dependencies caps fuel placed remaining = Except.ok lvls →
      LevelsSorted dependencies caps placed lvls := by
  intro fuel
  induction fuel with
  | zero =>
    intro placed remaining lvls h
    cases remaining with
    | nil =>
      have hz : topo_go dependencies caps 0 placed [] = Except.ok [] := rfl
      rw [hz] at h
      cases h
      trivial
    | cons a rest =>
      have hz : topo_go dependencies caps 0 placed (a :: rest) =
          Except.error "CyclicDependencyError" := rfl
      rw [hz] at h
      simp at h
  | succ fuel ih =>
    intro placed remaining lvls h
    cases remaining with
    | nil =>
      have hz : topo_go dependencies caps (fuel + 1) placed [] = Except.ok [] := rfl
      rw [hz] at h
      cases h
      trivial
    | cons a rest =>
      rw [topo_go_succ] at h
      by_cases hre : ((a :: rest).filter (fun c =>
          (depsOf dependencies c).all
            (fun d => placed.contains d || !caps.contains d))).isEmpty
      · simp only [hre] at h
        simp at h
      · simp only [hre, Bool.false_eq_true, if_false] at h
        cases hrec : topo_go dependencies caps fuel
            (placed ++ (a :: rest).filter (fun c =>
              (depsOf dependencies c).all
                (fun d => placed.contains d || !caps.contains d)))
            ((a :: rest).filter (fun c => !((a :: rest).filter (fun c =>
              (depsOf dependencies c).all
                (fun d => placed.contains d || !caps.contains d))).contains c)) with
        | error e =>
          rw [hrec] at h
          simp at h
        | ok lvls2 =>
          rw [hrec] at h
          simp only [Except.ok.injEq] at h
          subst h
          refine ⟨?_, ih _ _ lvls2 hrec⟩
          intro c hc d hd hdcaps
          have hall := (List.mem_filter.mp hc).2
          have hda := List.all_eq_true.mp hall d hd
          have hcapsd : caps.contains d = true := List.elem_iff.mpr hdcaps
          rw [hcapsd] at hda
          simp at hda
          exact hda

theorem topo_go_mem (dependencies : List (String × List String))
    (caps : List String) :
    ∀ fuel placed remaining lvls,
      topo_go dependencies caps fuel placed remaining = Except.ok lvls →
      ∀ x, x ∈ lvls.flatten ↔ x ∈ remaining := by
  intro fuel
  induction fuel with
  | zero =>
    intro placed remaining lvls h x
    cases remaining with
    | nil =>
      have hz : topo_go dependencies caps 0 placed [] = Except.ok [] := rfl
      rw [hz] at h
      cases h
      simp
    | cons a rest =>
      have hz : topo_go dependencies caps 0 placed (a :: rest) =
          Except.error "CyclicDependencyError" := rfl
      rw [hz] at h
      simp at h
  | succ fuel ih =>
    intro placed remaining lvls h x
    cases remaining with
    | nil =>
      have hz : topo_go dependencies caps (fuel + 1) placed [] = Except.ok [] := rfl
      rw [hz] at h
      cases h
      simp
    | cons a rest =>
      rw [topo_go_succ] at h
      by_cases hre : ((a :: rest).filter (fun c =>
          (depsOf dependencies c).all
            (fun d => placed.contains d || !caps.contains d))).isEmpty
      · simp only [hre] at h
        simp at h
      · simp only [hre, Bool.false_eq_true, if_false] at h
        cases hrec : topo_go dependencies caps fuel
            (placed ++ (a :: rest).filter (fun c =>
              (depsOf dependencies c).all
                (fun d => placed.contains d || !caps.contains d)))
            ((a :: rest).filter (fun c => !((a :: rest).filter (fun c =>
              (depsOf dependencies c).all
                (fun d => placed.contains d || !caps.contains d))).contains c)) with
        | error e =>
          rw [hrec] at h
          simp at h
        | ok lvls2 =>
          rw [hrec] at h
          simp only [Except.ok.injEq] at h
          subst h
          have ihx := ih _ _ lvls2 hrec x
          simp only [List.flatten_cons, List.mem_append, ihx]
          constructor
          · intro hx
            rcases hx with hx | hx
            · exact (List.mem_filter.mp hx).1
            · exact (List.mem_filter.mp hx).1
          · intro hx
            by_cases hxr : x ∈ (a :: rest).filter (fun c =>
                (depsOf dependencies c).all
                  (fun d => placed.contains d || !caps.contains d))
            · exact Or.inl hxr
            · refine Or.inr (List.mem_filter.mpr ⟨hx, ?_⟩)
              cases hcon : ((a :: rest).filter (fun c =>
                  (depsOf dependencies c).all
                    (fun d => placed.contains d || !caps.contains d))).contains x with
              | false => rfl
              | true => exact absurd (List.elem_iff.mp hcon) hxr

/-- C3.  Modelled from the spec (`execute_with_dependencies` is absent from
the sources; only its `hasattr` caller and test mocks exist).  A cyclic
dependency map fails fast with the specific `CyclicDependencyError` and an
empty event trace — no execution is attempted, no agent event emitted, and
the run terminates rather than looping; an acyclic map is partitioned into
topologically sorted levels covering exactly the matched capabilities, and
the executor then runs those levels strictly in order. -/
theorem execute_with_dependencies_cycle_fail_fast
    (reg : AgentRegistry) (subtasks : List (String × String)) (task_id : String)
    (ms : List CapabilityMatch) (dependencies : List (String × List String)) :
    (∀ C, CyclicAmong dependencies (ms.map (fun m => m.capability)) C →
      TaskExecutor.execute_with_dependencies traceHandler reg subtasks task_id
        ms dependencies [] = (Except.error "CyclicDependencyError", [])) ∧
    (∀ levels, topo_levels dependencies (ms.map (fun m => m.capability)) =
        Except.ok levels →
      LevelsSorted dependencies (ms.map (fun m => m.capability)) [] levels ∧
      (∀ x, x ∈ levels.flatten ↔ x ∈ ms.map (fun m => m.capability)) ∧
      TaskExecutor.execute_with_dependencies noHandler reg subtasks task_id
        ms dependencies =
        exec_levels noHandler reg subtasks task_id ms dependencies levels []) := by
  constructor
  · intro C hC
    have htopo : topo_levels dependencies (ms.map (fun m => m.capability)) =
        Except.error "CyclicDependencyError" := by
      unfold topo_levels
      exact topo_go_cyclic dependencies (ms.map (fun m => m.capability)) C hC
        (ms.map (fun m => m.capability)).length []
        (ms.map (fun m => m.capability))
        (fun c hc => hC.2.1 c hc)
        (fun c _ hmem => absurd hmem (List.not_mem_nil c))
    simp [TaskExecutor.execute_with_dependencies, htopo, RM.throw]
  · intro levels h
    have h2 := h
    unfold topo_levels at h2
    refine ⟨topo_go_sorted dependencies _ _ _ _ _ h2,
      fun x => topo_go_mem dependencies _ _ _ _ _ h2 x, ?_⟩
    simp [TaskExecutor.execute_with_dependencies, h]

/-- Witness for C3: the two-capability cycle A→B→A is rejected with
`CyclicDependencyError` and an empty trace. -/
theorem execute_with_dependencies_cycle_fail_fast_witness :
    TaskExecutor.execute_with_dependencies traceHandler [] [] "t15"
      [⟨"A", ["a1"], true⟩, ⟨"B", ["a2"], true⟩]
      [("A", ["B"]), ("B", ["A"])] [] =
      (Except.error "CyclicDependencyError", []) :=
  (execute_with_dependencies_cycle_fail_fast [] [] "t15"
    [⟨"A", ["a1"], true⟩, ⟨"B", ["a2"], true⟩]
    [("A", ["B"]), ("B", ["A"])]).1 ["A", "B"]
    ⟨by decide, by decide, by decide⟩
